import Mathlib

/-!
Verification of the indicator library and historical alert engine of the
monitorCriptoWEB2 repository, embedded shallowly from
`src/backend/indicators.py`, `src/backend/historical_analyzer.py` and
`src/backend/monitoring_service.py`.

A pandas float Series is embedded as `List (Option ℚ)`, with `none` playing
the role of NaN (any order comparison against NaN is false in pandas).  The
input price columns (high/low/close/volume) carry no NaN in well-formed
fetched data, so they are embedded as `List ℚ` and lifted to `Option` where
an operation can introduce NaN.  Python `None` dataframes are `Option` at
the function boundary, and functions whose guard dereferences a `None`
dataframe return `Except`.
-/

namespace Crypto

/-- One OHLCV bar: the timestamp index of the row plus the float columns the
analyzed code reads (the `open` column is never read by the embedded code). -/
structure Bar where
  ts : Nat
  high : ℚ
  low : ℚ
  close : ℚ
  volume : ℚ
deriving DecidableEq, Repr

/-- The `close` column of a dataframe. -/
def closesOf (d : List Bar) : List ℚ := d.map Bar.close

/-- The `high` column of a dataframe. -/
def highsOf (d : List Bar) : List ℚ := d.map Bar.high

/-- The `low` column of a dataframe. -/
def lowsOf (d : List Bar) : List ℚ := d.map Bar.low

/-- The `volume` column of a dataframe. -/
def volumesOf (d : List Bar) : List ℚ := d.map Bar.volume

/-- Strict `<` between possibly-NaN values, pandas semantics: any comparison
involving NaN is false. -/
def oLt : Option ℚ → Option ℚ → Bool
  | some a, some b => decide (a < b)
  | _, _ => false

/-- Non-strict `≤` between possibly-NaN values, pandas semantics. -/
def oLe : Option ℚ → Option ℚ → Bool
  | some a, some b => decide (a ≤ b)
  | _, _ => false

/-- pandas `Series.shift(k)`: `k` leading NaN entries, the tail truncated so
the length is preserved. -/
def pshift (k : Nat) (xs : List (Option ℚ)) : List (Option ℚ) :=
  (List.replicate k none ++ xs).take xs.length

/-- Sum of a list of rationals. -/
def qsum (xs : List ℚ) : ℚ := xs.foldr (· + ·) 0

/-- The window of (at most) the last `p` entries of `xs` ending at index `i`. -/
def winEnd (xs : List ℚ) (p i : Nat) : List ℚ :=
  (xs.take (i + 1)).drop (i + 1 - p)

/-- indicators.py `calculate_sma`: `series.rolling(window=period).mean()`,
NaN until a full window of `period` observations is available. -/
def calculate_sma (xs : List ℚ) (period : Nat) : List (Option ℚ) :=
  (List.range xs.length).map (fun i =>
    if period ≤ i + 1 then some (qsum (winEnd xs period i) / period) else none)

/-- The smoothing factor of pandas `ewm(span=span, adjust=False)`. -/
def ewmAlpha (span : Nat) : ℚ := 2 / ((span : ℚ) + 1)

/-- Tail recursion of `ewm(span, adjust=False).mean()`:
`y_t = a·x_t + (1-a)·y_(t-1)`. -/
def ewmAux (a : ℚ) : ℚ → List ℚ → List ℚ
  | _, [] => []
  | prev, x :: xs =>
    let v := a * x + (1 - a) * prev
    v :: ewmAux a v xs

/-- pandas `series.ewm(span=span, adjust=False).mean()` on a NaN-free series:
the standard recursive smoothing seeded by the first value. -/
def ewmMean (xs : List ℚ) (span : Nat) : List ℚ :=
  match xs with
  | [] => []
  | x :: rest => x :: ewmAux (ewmAlpha span) x rest

/-- indicators.py `calculate_ema`: `series.ewm(span=period, adjust=False).mean()`.
`ewm.mean` introduces no NaN on a NaN-free input, so every entry is defined. -/
def calculate_ema (xs : List ℚ) (period : Nat) : List (Option ℚ) :=
  (ewmMean xs period).map some

/-- `rolling(window=p, min_periods=1).mean()`: the mean of however many of the
last `p` observations are available. -/
def rollingMeanMin1 (xs : List ℚ) (p : Nat) : List (Option ℚ) :=
  (List.range xs.length).map (fun i =>
    some (qsum (winEnd xs p i) / ((winEnd xs p i).length : ℚ)))

/-- Sample variance (`ddof = 1`) of a window. -/
def sampleVar (xs : List ℚ) : ℚ :=
  let m := qsum xs / (xs.length : ℚ)
  qsum (xs.map (fun x => (x - m) ^ 2)) / ((xs.length : ℚ) - 1)

/-- Symbolic value `base + coeff·√rad` (with `0 ≤ rad`).  The Bollinger bands
`sma ± std_dev·std` involve a square root that is in general irrational, so
the band value is kept in this exact symbolic form; order comparisons against
rationals are decided exactly by squaring (`ltSqrtExpr`, `gtSqrtExpr`) and
proved equivalent to the real-valued comparison (`ltCoeffSqrt_iff`). -/
structure SqrtExpr where
  base : ℚ
  coeff : ℚ
  rad : ℚ
deriving DecidableEq, Repr

/-- Decides `e < c·√v` for `0 ≤ v`, by squaring. -/
def ltCoeffSqrt (e c v : ℚ) : Bool :=
  if e < 0 then (if 0 ≤ c then true else decide (c ^ 2 * v < e ^ 2))
  else (if c ≤ 0 then false else decide (e ^ 2 < c ^ 2 * v))

/-- Decides `x < base + coeff·√rad`. -/
def ltSqrtExpr (x : ℚ) (s : SqrtExpr) : Bool :=
  ltCoeffSqrt (x - s.base) s.coeff s.rad

/-- Decides `base + coeff·√rad < x`. -/
def gtSqrtExpr (x : ℚ) (s : SqrtExpr) : Bool :=
  ltCoeffSqrt (s.base - x) (-s.coeff) s.rad

/-- The real value denoted by a `SqrtExpr`. -/
noncomputable def SqrtExpr.val (s : SqrtExpr) : ℝ :=
  (s.base : ℝ) + (s.coeff : ℝ) * Real.sqrt (s.rad : ℝ)

/-- indicators.py `calculate_bollinger_bands`: the guard returns all-NaN
series when the dataframe is empty or shorter than `period`; otherwise
`sma = close.rolling(period, min_periods=1).mean()`,
`std = close.rolling(period, min_periods=1).std()` (sample std, NaN while the
window holds a single observation) and the bands are `sma ± std_dev·std`.
Returns `(upper, lower, middle)`. -/
def calculate_bollinger_bands (close : List ℚ) (period : Nat) (std_dev : ℚ) :
    List (Option SqrtExpr) × List (Option SqrtExpr) × List (Option ℚ) :=
  if close = [] ∨ close.length < period then
    (List.replicate close.length none, List.replicate close.length none,
     List.replicate close.length none)
  else
    let band := fun (c : ℚ) => (List.range close.length).map (fun i =>
      let w := winEnd close period i
      if 2 ≤ w.length then
        some (SqrtExpr.mk (qsum w / (w.length : ℚ)) c (sampleVar w))
      else none)
    (band std_dev, band (-std_dev), rollingMeanMin1 close period)

/-- The string "Nenhum" (no signal). -/
def sNenhum : String := "Nenhum"

/-- The string "Cruzamento de Alta" (bullish cross). -/
def sAlta : String := "Cruzamento de Alta"

/-- The string "Cruzamento de Baixa" (bearish cross). -/
def sBaixa : String := "Cruzamento de Baixa"

/-- The string "HiLo Buy". -/
def sHiloBuy : String := "HiLo Buy"

/-- The string "HiLo Sell". -/
def sHiloSell : String := "HiLo Sell"

/-- The string "N/A". -/
def sNA : String := "N/A"

/-- The string "EMA". -/
def sEMA : String := "EMA"

/-- Marker for the exception raised when a guard branch evaluates `df.index`
on a `None` dataframe. -/
def sAttributeError : String := "AttributeError: NoneType object has no attribute index"

/-- The MACD line of `calculate_macd`: `EMA(close,fast) − EMA(close,slow)`. -/
def macdLine (close : List ℚ) (fast slow : Nat) : List ℚ :=
  List.zipWith (· - ·) (ewmMean close fast) (ewmMean close slow)

/-- The MACD signal line: `EMA(macd line, signal)`. -/
def macdSignalLine (close : List ℚ) (fast slow signal : Nat) : List ℚ :=
  ewmMean (macdLine close fast slow) signal

/-- Per-bar crossover state of the vectorized branch of `calculate_macd`:
"Cruzamento de Alta" where `macd.shift(1) < signal.shift(1)` and
`macd > signal`, "Cruzamento de Baixa" on the opposite crossing, "Nenhum"
otherwise (in particular at index 0, where `shift(1)` is NaN and both masks
are false).  The two masks are mutually exclusive, so the assignment order of
the source is irrelevant. -/
def macdCrossAt (m s : List ℚ) (i : Nat) : String :=
  if 1 ≤ i ∧ m.getD (i - 1) 0 < s.getD (i - 1) 0 ∧ s.getD i 0 < m.getD i 0 then sAlta
  else if 1 ≤ i ∧ s.getD (i - 1) 0 < m.getD (i - 1) 0 ∧ m.getD i 0 < s.getD i 0 then sBaixa
  else sNenhum

/-- The full crossover-state series of `calculate_macd` (`return_series=True`),
after the insufficient-data guard. -/
def macdSeriesCore (close : List ℚ) (fast slow signal : Nat) : List String :=
  (List.range close.length).map
    (macdCrossAt (macdLine close fast slow) (macdSignalLine close fast slow signal))

/-- The crossover-state series produced by `calculate_macd`
(`return_series=True`) on a non-`None` dataframe: all-"Nenhum" under the
insufficient-data guard (`len(df) < slow + signal`). -/
def macdSeriesOf (close : List ℚ) (fast slow signal : Nat) : List String :=
  if close.length < slow + signal then List.replicate close.length sNenhum
  else macdSeriesCore close fast slow signal

/-- indicators.py `calculate_macd` with `return_series=True`.  The guard
branch builds `pd.Series("Nenhum", index=df.index)`, which raises when the
dataframe is Python `None`: that is the `.error` case. -/
def calculate_macd_series (df : Option (List ℚ)) (fast slow signal : Nat) :
    Except String (List String) :=
  match df with
  | none => Except.error sAttributeError
  | some close => Except.ok (macdSeriesOf close fast slow signal)

/-- indicators.py `calculate_macd` with `return_series=False` (live mode):
`(signal string, latest macd, latest signal line, latest histogram)`.  A
`None` or too-short dataframe returns `("N/A", 0, 0, 0)` without touching
`df.index`, so this mode never raises. -/
def calculate_macd_live (df : Option (List ℚ)) (fast slow signal : Nat) :
    String × ℚ × ℚ × ℚ :=
  match df with
  | none => (sNA, 0, 0, 0)
  | some close =>
    if close.length < slow + signal then (sNA, 0, 0, 0)
    else
      let m := macdLine close fast slow
      let sl := macdSignalLine close fast slow signal
      let h := List.zipWith (· - ·) m sl
      let n := close.length
      let signalStr :=
        if 2 ≤ n ∧ m.getD (n - 2) 0 < sl.getD (n - 2) 0 ∧ sl.getD (n - 1) 0 < m.getD (n - 1) 0
        then sAlta
        else if 2 ≤ n ∧ sl.getD (n - 2) 0 < m.getD (n - 2) 0 ∧ m.getD (n - 1) 0 < sl.getD (n - 1) 0
        then sBaixa
        else sNenhum
      (signalStr, m.getD (n - 1) 0, sl.getD (n - 1) 0, h.getD (n - 1) 0)

/-- indicators.py `calculate_emas`: one EMA series per requested period,
skipping periods longer than the available data; empty on a `None` or empty
dataframe. -/
def calculate_emas (df : Option (List Bar)) (periods : List Nat) : List (Nat × List ℚ) :=
  match df with
  | none => []
  | some d =>
    if d = [] then []
    else periods.filterMap (fun p =>
      if p ≤ d.length then some (p, ewmMean (closesOf d) p) else none)

/-- Pointwise crossover mask used by HiLo and the moving-average cross:
`close.shift(1) ≤ ma.shift(1)` and `close > ma` (NaN comparisons false). -/
def crossAboveAt (close : List ℚ) (ma : List (Option ℚ)) (i : Nat) : Bool :=
  let cO := close.map some
  oLe ((pshift 1 cO).getD i none) ((pshift 1 ma).getD i none) &&
    oLt (ma.getD i none) (cO.getD i none)

/-- Pointwise crossunder mask: `close.shift(1) ≥ ma.shift(1)` and `close < ma`. -/
def crossBelowAt (close : List ℚ) (ma : List (Option ℚ)) (i : Nat) : Bool :=
  let cO := close.map some
  oLe ((pshift 1 ma).getD i none) ((pshift 1 cO).getD i none) &&
    oLt (cO.getD i none) (ma.getD i none)

/-- The high/low moving average of `calculate_hilo_signals`: EMA or SMA of the
`high`/`low` column, shifted by `offset`. -/
def hiloMa (maType : String) (xs : List ℚ) (length offset : Nat) : List (Option ℚ) :=
  if maType = sEMA then pshift offset (calculate_ema xs length)
  else pshift offset (calculate_sma xs length)

/-- The `buy_signals_series` of `calculate_hilo_signals`: close crosses above
the high moving average. -/
def hiloBuySeries (d : List Bar) (length offset : Nat) (maType : String) : List Bool :=
  (List.range d.length).map
    (crossAboveAt (closesOf d) (hiloMa maType (highsOf d) length offset))

/-- The `sell_signals_series` of `calculate_hilo_signals`: close crosses below
the low moving average. -/
def hiloSellSeries (d : List Bar) (length offset : Nat) (maType : String) : List Bool :=
  (List.range d.length).map
    (crossBelowAt (closesOf d) (hiloMa maType (lowsOf d) length offset))

/-- Per-bar signal string of the series branch of `calculate_hilo_signals`.
The source assigns "HiLo Buy" on the buy mask and then "HiLo Sell" on the
sell mask, so a bar satisfying both ends up "HiLo Sell": the sell branch is
tested first here to reproduce that last-assignment-wins order. -/
def hiloSignalAt (d : List Bar) (length offset : Nat) (maType : String) (i : Nat) : String :=
  if crossBelowAt (closesOf d) (hiloMa maType (lowsOf d) length offset) i then sHiloSell
  else if crossAboveAt (closesOf d) (hiloMa maType (highsOf d) length offset) i then sHiloBuy
  else sNenhum

/-- The signal-string series of indicators.py `calculate_hilo_signals` with
`return_series=True` (the third component of the returned tuple; the first
two components of the guard branch are the scalars `False, False`, which no
caller of the series mode consumes).  The guard builds
`pd.Series("Nenhum", index=df.index)`, raising on a `None` dataframe. -/
def calculate_hilo_signals_series (df : Option (List Bar)) (length : Nat)
    (maType : String) (offset : Nat) : Except String (List String) :=
  match df with
  | none => Except.error sAttributeError
  | some d =>
    if d = [] ∨ d.length < length + offset + 1 then
      Except.ok (List.replicate d.length sNenhum)
    else
      Except.ok ((List.range d.length).map (hiloSignalAt d length offset maType))

/-- The signal-string series of `calculate_hilo_signals` on a non-`None`
dataframe (all-"Nenhum" under the insufficient-data guard). -/
def hiloSeriesOf (d : List Bar) (length : Nat) (maType : String) (offset : Nat) :
    List String :=
  if d = [] ∨ d.length < length + offset + 1 then List.replicate d.length sNenhum
  else (List.range d.length).map (hiloSignalAt d length offset maType)

/-- indicators.py `calculate_hilo_signals` with `return_series=False` (live
mode): `(buy, sell, signal string)` where buy/sell are the last entries of the
full signal series and the string prefers "HiLo Buy".  The guard returns
`(False, False, None)` without touching `df.index`, so this mode never
raises; the Python `None` third component is `none`. -/
def calculate_hilo_signals_live (df : Option (List Bar)) (length : Nat)
    (maType : String) (offset : Nat) : Bool × Bool × Option String :=
  match df with
  | none => (false, false, none)
  | some d =>
    if d = [] ∨ d.length < length + offset + 1 then (false, false, none)
    else
      let n := d.length
      let buy := (hiloBuySeries d length offset maType).getD (n - 1) false
      let sell := (hiloSellSeries d length offset maType).getD (n - 1) false
      (buy, sell, some (if buy then sHiloBuy else if sell then sHiloSell else sNenhum))

/-- Per-bar signal of the series branch of `calculate_media_movel_cross`: the
source assigns "Cruzamento de Alta" on the crossover mask and then
"Cruzamento de Baixa" on the crossunder mask (the masks are mutually
exclusive since one needs `close > ema` and the other `close < ema`). -/
def mmcAt (d : List Bar) (period i : Nat) : String :=
  let ema := calculate_ema (closesOf d) period
  if crossBelowAt (closesOf d) ema i then sBaixa
  else if crossAboveAt (closesOf d) ema i then sAlta
  else sNenhum

/-- indicators.py `calculate_media_movel_cross` with `return_series=True`.
The guard builds `pd.Series("Nenhum", index=df.index)`, raising on `None`. -/
def calculate_media_movel_cross_series (df : Option (List Bar)) (period : Nat) :
    Except String (List String) :=
  match df with
  | none => Except.error sAttributeError
  | some d =>
    if d.length < period + 1 then Except.ok (List.replicate d.length sNenhum)
    else Except.ok ((List.range d.length).map (mmcAt d period))

/-- The signal series of `calculate_media_movel_cross` on a non-`None`
dataframe (all-"Nenhum" under the insufficient-data guard). -/
def mmcSeriesOf (d : List Bar) (period : Nat) : List String :=
  if d.length < period + 1 then List.replicate d.length sNenhum
  else (List.range d.length).map (mmcAt d period)

/-- indicators.py `calculate_media_movel_cross` with `return_series=False`
(live mode): "Nenhum" on the guards (including fewer than two bars), else the
last entry of the crossover/crossunder masks, crossover tested first. -/
def calculate_media_movel_cross_live (df : Option (List Bar)) (period : Nat) : String :=
  match df with
  | none => sNenhum
  | some d =>
    if d.length < period + 1 then sNenhum
    else if d.length < 2 then sNenhum
    else
      let ema := calculate_ema (closesOf d) period
      if crossAboveAt (closesOf d) ema (d.length - 1) then sAlta
      else if crossBelowAt (closesOf d) ema (d.length - 1) then sBaixa
      else sNenhum

/-- Modelled from the spec: the non-guard body of `calculate_rsi` delegates
to `pandas_ta.rsi` (an external library, not part of src/).  Following the
spec: RSI at bar `i` is the rolling average gain over the rolling average
loss of closing-price deltas over a window of `period` deltas; it saturates
at 100 when the average loss is zero, is 0 when the average gain is zero, and
is `100 − 100/(1 + ag/al)` otherwise; the first `period` bars are NaN. -/
def rsiAt (close : List ℚ) (period i : Nat) : Option ℚ :=
  if i < period ∨ period = 0 then none
  else
    let gains := (List.range period).map (fun j =>
      max (close.getD (i - j) 0 - close.getD (i - j - 1) 0) 0)
    let losses := (List.range period).map (fun j =>
      max (close.getD (i - j - 1) 0 - close.getD (i - j) 0) 0)
    let ag := qsum gains / (period : ℚ)
    let al := qsum losses / (period : ℚ)
    if al = 0 then some 100
    else if ag = 0 then some 0
    else some (100 - 100 / (1 + ag / al))

/-- The RSI series produced by `calculate_rsi` on a non-`None` dataframe
(all-NaN under the insufficient-data guard). -/
def rsiSeriesOf (d : List Bar) (period : Nat) : List (Option ℚ) :=
  if d = [] ∨ d.length < period + 1 then List.replicate d.length none
  else (List.range d.length).map (rsiAt (closesOf d) period)

/-- indicators.py `calculate_rsi`: returns `(rsi series, 0, 0)`.  The guard
(`df` None, empty, or shorter than `period + 1`) returns an all-NaN series
built over `df.index`, which raises when the dataframe is `None`. -/
def calculate_rsi (df : Option (List Bar)) (period : Nat) :
    Except String (List (Option ℚ) × ℚ × ℚ) :=
  match df with
  | none => Except.error sAttributeError
  | some d => Except.ok (rsiSeriesOf d period, 0, 0)

/-- The inner `wma` of `calculate_hma`:
`s.rolling(window=p).apply(λ x, dot(x, 1..p) / sum(1..p), raw=True)`; the
entry is NaN until the window holds `p` observations, and a NaN inside the
window propagates (the dot product with NaN is NaN). -/
def wma (s : List (Option ℚ)) (p : Nat) : List (Option ℚ) :=
  (List.range s.length).map (fun i =>
    let w := (s.take (i + 1)).drop (i + 1 - p)
    if p ≤ i + 1 ∧ w.all Option.isSome then
      some (qsum (List.zipWith (fun x (j : Nat) => x.getD 0 * ((j : ℚ) + 1)) w
          (List.range p)) /
        ((p : ℚ) * ((p : ℚ) + 1) / 2))
    else none)

/-- indicators.py `calculate_hma`: all-NaN for `len(series) < period`, else
`WMA(2·WMA(series, half_length) − WMA(series, period), sqrt_length)` with
`half_length = int(period / 2)` and `sqrt_length = int(np.sqrt(period))`
(both truncating, as in the source). -/
def calculate_hma (series : List ℚ) (period : Nat) : List (Option ℚ) :=
  if series.length < period then List.replicate series.length none
  else
    let half_length := period / 2
    let sqrt_length := Nat.sqrt period
    let wma_half := wma (series.map some) half_length
    let wma_full := wma (series.map some) period
    let diff := List.zipWith (fun x y => match x, y with
      | some x, some y => some (2 * x - y)
      | _, _ => none) wma_half wma_full
    wma diff sqrt_length

/-- Rounding square root: the nearest integer to `√p` (ties impossible,
since `p = r² + r + 1/4` has no integer solution); validated against
`round (Real.sqrt p)` in `roundSqrt_eq_round` below. -/
def roundSqrt (p : Nat) : Nat :=
  let r := Nat.sqrt p
  if p ≤ r * r + r then r else r + 1

/-- Modelled from the spec: linearly-weighted moving average with weights
`1..n` — each full window of defined values is combined with weights
`1, 2, …, p` and divided by the sum of those weights. -/
def wmaSpec (s : List (Option ℚ)) (p : Nat) : List (Option ℚ) :=
  (List.range s.length).map (fun i =>
    let w := (s.take (i + 1)).drop (i + 1 - p)
    if p ≤ i + 1 ∧ w.all Option.isSome then
      some (qsum (List.zipWith (fun x (j : Nat) => x.getD 0 * ((j : ℚ) + 1)) w
          (List.range p)) /
        qsum ((List.range p).map (fun j : Nat => (j : ℚ) + 1)))
    else none)

/-- Modelled from the spec: `hull_moving_average(series, period)` is
`WMA(2×WMA(series, period/2) − WMA(series, period), round(sqrt(period)))`
with linearly-weighted `WMA`, and all-undefined for
`len(series) < period`. -/
def hull_moving_average (series : List ℚ) (period : Nat) : List (Option ℚ) :=
  if series.length < period then List.replicate series.length none
  else
    let diff := List.zipWith (fun x y => match x, y with
      | some x, some y => some (2 * x - y)
      | _, _ => none)
      (wmaSpec (series.map some) (period / 2)) (wmaSpec (series.map some) period)
    wmaSpec diff (roundSqrt period)

/-- Cumulative sums, pandas `cumsum`. -/
def cumsum (xs : List ℚ) : List ℚ :=
  (List.range xs.length).map (fun i => qsum (xs.take (i + 1)))

/-- indicators.py `calculate_vwap`:
`(close·volume).cumsum() / volume.cumsum()`. -/
def calculate_vwap (d : List Bar) : List ℚ :=
  List.zipWith (· / ·)
    (cumsum (List.zipWith (· * ·) (closesOf d) (volumesOf d)))
    (cumsum (volumesOf d))

/-! Historical alert scanner (historical_analyzer.py). -/

/-- Condition key "rsi_sobrevendido". -/
def kRsiSv : String := "rsi_sobrevendido"

/-- Condition key "rsi_sobrecomprado". -/
def kRsiSc : String := "rsi_sobrecomprado"

/-- Condition key "bollinger_abaixo". -/
def kBollAb : String := "bollinger_abaixo"

/-- Condition key "bollinger_acima". -/
def kBollAc : String := "bollinger_acima"

/-- Condition key "macd_cruz_alta". -/
def kMacdAlta : String := "macd_cruz_alta"

/-- Condition key "macd_cruz_baixa". -/
def kMacdBaixa : String := "macd_cruz_baixa"

/-- Condition key "mme_cruz_dourada". -/
def kDourada : String := "mme_cruz_dourada"

/-- Condition key "mme_cruz_morte". -/
def kMorte : String := "mme_cruz_morte"

/-- Condition key "hilo_compra". -/
def kHiloC : String := "hilo_compra"

/-- Condition key "hilo_venda". -/
def kHiloV : String := "hilo_venda"

/-- Condition key "media_movel_cima". -/
def kMMC : String := "media_movel_cima"

/-- Condition key "media_movel_baixo". -/
def kMMB : String := "media_movel_baixo"

/-- Condition key "hma_cruz_alta" (hit-rate mapping only). -/
def kHmaAlta : String := "hma_cruz_alta"

/-- Condition key "hma_cruz_baixa" (hit-rate mapping only). -/
def kHmaBaixa : String := "hma_cruz_baixa"

/-- Condition key "vwap_cruz_alta" (hit-rate mapping only). -/
def kVwapAlta : String := "vwap_cruz_alta"

/-- Condition key "vwap_cruz_baixa" (hit-rate mapping only). -/
def kVwapBaixa : String := "vwap_cruz_baixa"

/-- Description "RSI em Sobrevenda (", left part. -/
def dRsiSvL : String := "RSI em Sobrevenda ("

/-- Description "RSI em Sobrecompra (", left part. -/
def dRsiScL : String := "RSI em Sobrecompra ("

/-- Closing parenthesis of the RSI descriptions. -/
def dParenR : String := ")"

/-- Description of the `bollinger_abaixo` condition. -/
def dBollAb : String := "Preço Abaixo da Banda de Bollinger"

/-- Description of the `bollinger_acima` condition. -/
def dBollAc : String := "Preço Acima da Banda de Bollinger"

/-- Description of the `macd_cruz_alta` condition. -/
def dMacdAlta : String := "MACD: Cruzamento de Alta"

/-- Description of the `macd_cruz_baixa` condition. -/
def dMacdBaixa : String := "MACD: Cruzamento de Baixa"

/-- Description of the `mme_cruz_dourada` condition. -/
def dDourada : String := "MME: Cruz Dourada (50/200)"

/-- Description of the `mme_cruz_morte` condition. -/
def dMorte : String := "MME: Cruz da Morte (50/200)"

/-- Description of the `hilo_compra` condition. -/
def dHiloC : String := "HiLo: Sinal de Compra"

/-- Description of the `hilo_venda` condition. -/
def dHiloV : String := "HiLo: Sinal de Venda"

/-- Left part of the moving-average-cross descriptions. -/
def dMmeL : String := "Preço cruzou MME "

/-- Right part of the upward moving-average-cross description. -/
def dMmeCima : String := " para cima"

/-- Right part of the downward moving-average-cross description. -/
def dMmeBaixo : String := " para baixo"

/-- Underscore separator of the per-period condition keys. -/
def sUnder : String := "_"

/-- Minus sign. -/
def sMinus : String := "-"

/-- Decimal dot. -/
def sDot : String := "."

/-- The digit zero (padding of `fmt2`). -/
def sZero : String := "0"

/-- The empty string. -/
def sEmptyStr : String := ""

/-- Direction tag "buy". -/
def sBuy : String := "buy"

/-- Direction tag "sell". -/
def sSell : String := "sell"

/-- Python `round` to the nearest integer, ties to even. -/
def roundHalfEven (q : ℚ) : ℤ :=
  let f := ⌊q⌋
  if q - f < 1 / 2 then f
  else if (1 : ℚ) / 2 < q - f then f + 1
  else if f % 2 = 0 then f else f + 1

/-- Python `round(x, 2)`. -/
def rnd2 (q : ℚ) : ℚ := (roundHalfEven (q * 100) : ℚ) / 100

/-- Python `'{:.2f}'.format(q)`: fixed-point rendering with two fractional
digits (round half to even). -/
def fmt2 (q : ℚ) : String :=
  let n := roundHalfEven (q * 100)
  let sign := if n < 0 then sMinus else sEmptyStr
  let a := n.natAbs
  sign ++ toString (a / 100) ++ sDot ++
    (if a % 100 < 10 then sZero else sEmptyStr) ++ toString (a % 100)

/-- A triggered-alert record as produced by the scan phase: timestamp index,
symbol, condition key, description, and the close-price snapshot. -/
structure AlertRec where
  ts : Nat
  symbol : String
  condition : String
  description : String
  price : ℚ
deriving DecidableEq, Repr

/-- Placeholder bar (out-of-range index access default; never reached on
in-range indices). -/
def defaultBar : Bar := Bar.mk 0 0 0 0 0

/-- The records materialized from one condition's boolean mask
(`create_alert_df`): one record per bar where the mask is true, carrying the
bar's timestamp and close price. -/
def recordsOf (symbol : String) (d : List Bar) (mask : Nat → Bool) (key : String)
    (desc : Nat → String) : List AlertRec :=
  (List.range d.length).filterMap (fun i =>
    if mask i then
      some (AlertRec.mk (d.getD i defaultBar).ts symbol key (desc i)
        (d.getD i defaultBar).close)
    else none)

/-- `conditions.get(key, {}).get('enabled')` truthiness. -/
def condEnabled (conds : List (String × Bool)) (key : String) : Bool :=
  (conds.lookup key).getD false

/-- The scan parameters of `analyze_historical_alerts` (extracted with these
defaults from the `parameters` dict). -/
structure ScanParams where
  rsi_period : Nat
  rsi_overbought : ℚ
  rsi_oversold : ℚ
  macd_fast : Nat
  macd_slow : Nat
  macd_signal : Nat
  bb_period : Nat
  bb_std : ℚ
deriving Repr

/-- The default scan parameters. -/
def defaultParams : ScanParams := ScanParams.mk 14 75 30 12 26 9 20 2

/-- Comparison `series ≤ threshold` of a possibly-NaN entry (false on NaN). -/
def oLeC (o : Option ℚ) (q : ℚ) : Bool := oLe o (some q)

/-- Comparison `series ≥ threshold` of a possibly-NaN entry (false on NaN). -/
def oGeC (o : Option ℚ) (q : ℚ) : Bool := oLe (some q) o

/-- Comparison `series < threshold` of a possibly-NaN entry (false on NaN). -/
def oLtC (o : Option ℚ) (q : ℚ) : Bool := oLt o (some q)

/-- Comparison of a price against a possibly-NaN band value `x < band`. -/
def oLtSqrt (x : ℚ) : Option SqrtExpr → Bool
  | some s => ltSqrtExpr x s
  | none => false

/-- Comparison of a price against a possibly-NaN band value `x > band`. -/
def oGtSqrt (x : ℚ) : Option SqrtExpr → Bool
  | some s => gtSqrtExpr x s
  | none => false

/-- The fixed periods of the generic moving-average-cross conditions. -/
def mmePeriods : List Nat := [17, 34, 72, 144]

/-- The bullish-MACD trigger mask of `analyze_historical_alerts`: the
crossover-state series equals "Cruzamento de Alta" AND the RSI series is
strictly below the oversold threshold (the source comments this as
"MACD Buy Signal requires RSI < Oversold Threshold"). -/
def macdAltaMask (d : List Bar) (p : ScanParams) (i : Nat) : Bool :=
  ((macdSeriesOf (closesOf d) p.macd_fast p.macd_slow p.macd_signal).getD i sNenhum
      == sAlta) &&
    oLtC ((rsiSeriesOf d p.rsi_period).getD i none) p.rsi_oversold

/-- The bearish-MACD trigger mask: the crossover-state series equals
"Cruzamento de Baixa" (no RSI filter). -/
def macdBaixaMask (d : List Bar) (p : ScanParams) (i : Nat) : Bool :=
  (macdSeriesOf (closesOf d) p.macd_fast p.macd_slow p.macd_signal).getD i sNenhum
    == sBaixa

/-- The concatenation (in source order) of every enabled condition's alert
records, before sorting and deduplication. -/
def scanGroups (symbol : String) (d : List Bar) (conds : List (String × Bool))
    (p : ScanParams) : List AlertRec :=
  let close := closesOf d
  let rsi := rsiSeriesOf d p.rsi_period
  let bb := calculate_bollinger_bands close p.bb_period p.bb_std
  let emas := calculate_emas (some d) [50, 200]
  let hilo := hiloSeriesOf d 34 sEMA 0
  let g1 := if condEnabled conds kRsiSv then
      recordsOf symbol d (fun i => oLeC (rsi.getD i none) p.rsi_oversold) kRsiSv
        (fun i => dRsiSvL ++ fmt2 ((rsi.getD i none).getD 0) ++ dParenR)
    else []
  let g2 := if condEnabled conds kRsiSc then
      recordsOf symbol d (fun i => oGeC (rsi.getD i none) p.rsi_overbought) kRsiSc
        (fun i => dRsiScL ++ fmt2 ((rsi.getD i none).getD 0) ++ dParenR)
    else []
  let g3 := if condEnabled conds kBollAb then
      recordsOf symbol d (fun i => oLtSqrt (close.getD i 0) (bb.2.1.getD i none)) kBollAb
        (fun _ => dBollAb)
    else []
  let g4 := if condEnabled conds kBollAc then
      recordsOf symbol d (fun i => oGtSqrt (close.getD i 0) (bb.1.getD i none)) kBollAc
        (fun _ => dBollAc)
    else []
  let g5 := if condEnabled conds kMacdAlta then
      recordsOf symbol d (macdAltaMask d p) kMacdAlta (fun _ => dMacdAlta)
    else []
  let g6 := if condEnabled conds kMacdBaixa then
      recordsOf symbol d (macdBaixaMask d p) kMacdBaixa (fun _ => dMacdBaixa)
    else []
  let gd := match emas.lookup 50, emas.lookup 200 with
    | some e50, some e200 =>
      (if condEnabled conds kDourada then
        recordsOf symbol d (fun i => decide (1 ≤ i ∧
            e50.getD (i - 1) 0 < e200.getD (i - 1) 0 ∧ e200.getD i 0 < e50.getD i 0))
          kDourada (fun _ => dDourada)
      else []) ++
      (if condEnabled conds kMorte then
        recordsOf symbol d (fun i => decide (1 ≤ i ∧
            e200.getD (i - 1) 0 < e50.getD (i - 1) 0 ∧ e50.getD i 0 < e200.getD i 0))
          kMorte (fun _ => dMorte)
      else [])
    | _, _ => []
  let g7 := if condEnabled conds kHiloC then
      recordsOf symbol d (fun i => hilo.getD i sNenhum == sHiloBuy) kHiloC
        (fun _ => dHiloC)
    else []
  let g8 := if condEnabled conds kHiloV then
      recordsOf symbol d (fun i => hilo.getD i sNenhum == sHiloSell) kHiloV
        (fun _ => dHiloV)
    else []
  let g9 := if condEnabled conds kMMC then
      (mmePeriods.map (fun per =>
        recordsOf symbol d (fun i => (mmcSeriesOf d per).getD i sNenhum == sAlta)
          (kMMC ++ sUnder ++ toString per)
          (fun _ => dMmeL ++ toString per ++ dMmeCima))).flatten
    else []
  let g10 := if condEnabled conds kMMB then
      (mmePeriods.map (fun per =>
        recordsOf symbol d (fun i => (mmcSeriesOf d per).getD i sNenhum == sBaixa)
          (kMMB ++ sUnder ++ toString per)
          (fun _ => dMmeL ++ toString per ++ dMmeBaixo))).flatten
    else []
  g1 ++ g2 ++ g3 ++ g4 ++ g5 ++ g6 ++ gd ++ g7 ++ g8 ++ g9 ++ g10

/-- Timestamp (index) order on alert records, the sort key of `sort_index()`. -/
def tsLe (a b : AlertRec) : Prop := a.ts ≤ b.ts

instance : DecidableRel tsLe := fun a b => Nat.decLe a.ts b.ts

instance : IsTotal AlertRec tsLe := ⟨fun a b => Nat.le_total a.ts b.ts⟩

instance : IsTrans AlertRec tsLe := ⟨fun _ _ _ h h2 => Nat.le_trans h h2⟩

/-- `drop_duplicates(subset=['timestamp', 'description'])`, keeping the first
occurrence of each (timestamp, description) pair. -/
def dropDupKeys (seen : List (Nat × String)) : List AlertRec → List AlertRec
  | [] => []
  | r :: rs =>
    if (r.ts, r.description) ∈ seen then dropDupKeys seen rs
    else r :: dropDupKeys ((r.ts, r.description) :: seen) rs

/-- The scan phase of historical_analyzer.py `analyze_historical_alerts`:
empty history → no alerts; otherwise concatenate every enabled condition's
records, sort by timestamp, deduplicate on (timestamp, description). -/
def scanRecords (symbol : String) (d : List Bar) (conds : List (String × Bool))
    (p : ScanParams) : List AlertRec :=
  if d = [] then []
  else dropDupKeys [] (List.insertionSort tsLe (scanGroups symbol d conds p))

/-- An alert record enriched by the hit-rate pass: the `hit_rate_calculated`
flag plus one `(horizon name, hit_<tf>, pct_change_<tf>)` entry per
configured horizon (`none` = null). -/
structure HitAlert where
  base : AlertRec
  hit_rate_calculated : Bool
  results : List (String × Option Bool × Option ℚ)
deriving DecidableEq, Repr

/-- historical_analyzer.py `SIGNAL_TYPE_MAPPING`, in dict insertion order. -/
def SIGNAL_TYPE_MAPPING : List (String × String) :=
  [(kRsiSv, sBuy), (kBollAb, sBuy), (kMacdAlta, sBuy), (kDourada, sBuy),
   (kHiloC, sBuy), (kMMC, sBuy), (kHmaAlta, sBuy), (kVwapAlta, sBuy),
   (kRsiSc, sSell), (kBollAc, sSell), (kMacdBaixa, sSell), (kMorte, sSell),
   (kHiloV, sSell), (kMMB, sSell), (kHmaBaixa, sSell), (kVwapBaixa, sSell)]

/-- The directional bias of a condition: the first mapping entry whose key is
a prefix of the condition string (`condition.startswith(key)`). -/
def signalTypeFor (condition : String) : Option String :=
  (SIGNAL_TYPE_MAPPING.find? (fun kv => kv.1.data.isPrefixOf condition.data)).map (·.2)

/-- historical_analyzer.py `calculate_hit_rate`, with the already-fetched
1-minute forward data passed as `future` (the fetch is an external
collaborator; timestamps are minutes, so `alert_time + timedelta(minutes=m)`
is `ts + m`).  Empty alert list → returned unchanged; empty forward data →
every alert marked `hit_rate_calculated = False` with every hit/pct field
left null; otherwise every alert is marked calculated, and for each alert
with a mapped direction and each horizon the first forward bar at or after
`ts + minutes` decides `hit` and the percent change (stored rounded to two
decimals; `pct = 0` when the trigger price is 0). -/
def calculate_hit_rate (alerts : List AlertRec) (future : List Bar)
    (tfs : List (String × Nat)) : List HitAlert :=
  if alerts = [] then []
  else if future = [] then
    alerts.map (fun a => HitAlert.mk a false (tfs.map (fun tf => (tf.1, none, none))))
  else
    alerts.map (fun a =>
      match signalTypeFor a.condition with
      | none => HitAlert.mk a true (tfs.map (fun tf => (tf.1, none, none)))
      | some stype =>
        HitAlert.mk a true (tfs.map (fun tf =>
          match future.find? (fun b => decide (a.ts + tf.2 ≤ b.ts)) with
          | none => (tf.1, none, none)
          | some b =>
            let pct := if a.price ≠ 0 then ((b.close - a.price) / a.price) * 100 else 0
            let hit := (stype == sBuy && decide (0 < pct)) ||
              (stype == sSell && decide (pct < 0))
            (tf.1, some hit, some (rnd2 pct)))))

/-- historical_analyzer.py `analyze_historical_alerts`, full pipeline with
the two external fetches supplied as parameters: empty history → no alerts;
no scan records → returned without a hit-rate pass; otherwise the
deduplicated records enriched by `calculate_hit_rate`. -/
def analyze_historical_alerts (symbol : String) (d : List Bar)
    (conds : List (String × Bool)) (p : ScanParams) (tfs : List (String × Nat))
    (future : List Bar) : List HitAlert :=
  if d = [] then []
  else
    let recs := scanRecords symbol d conds p
    if recs = [] then [] else calculate_hit_rate recs future tfs

/-! Live alert triggering (monitoring_service.py `_check_and_trigger_alerts`). -/

/-- The live signal string "Cruz da Morte". -/
def sCruzMorte : String := "Cruz da Morte"

/-- The live signal string "Cruz Dourada". -/
def sCruzDourada : String := "Cruz Dourada"

/-- The live Bollinger signal "Abaixo da Banda". -/
def sAbaixoBanda : String := "Abaixo da Banda"

/-- The live Bollinger signal "Acima da Banda". -/
def sAcimaBanda : String := "Acima da Banda"

/-- Live condition-config key "PRECO_ABAIXO". -/
def cPRECO_ABAIXO : String := "PRECO_ABAIXO"

/-- Live condition-config key "PRECO_ACIMA". -/
def cPRECO_ACIMA : String := "PRECO_ACIMA"

/-- Programmatic trigger key "PRECO_ABAIXO". -/
def tPRECO_ABAIXO : String := "PRECO_ABAIXO"

/-- Programmatic trigger key "PRECO_ACIMA". -/
def tPRECO_ACIMA : String := "PRECO_ACIMA"

/-- Programmatic trigger key "RSI_SOBREVENDA". -/
def tRSI_SOBREVENDA : String := "RSI_SOBREVENDA"

/-- Programmatic trigger key "RSI_SOBRECOMPRA". -/
def tRSI_SOBRECOMPRA : String := "RSI_SOBRECOMPRA"

/-- Programmatic trigger key "PRECO_ABAIXO_BANDA_INFERIOR". -/
def tBANDA_INFERIOR : String := "PRECO_ABAIXO_BANDA_INFERIOR"

/-- Programmatic trigger key "PRECO_ACIMA_BANDA_SUPERIOR". -/
def tBANDA_SUPERIOR : String := "PRECO_ACIMA_BANDA_SUPERIOR"

/-- Programmatic trigger key "CRUZAMENTO_MACD_BAIXA". -/
def tMACD_BAIXA : String := "CRUZAMENTO_MACD_BAIXA"

/-- Programmatic trigger key "CRUZAMENTO_MACD_ALTA". -/
def tMACD_ALTA : String := "CRUZAMENTO_MACD_ALTA"

/-- Programmatic trigger key "CRUZ_DA_MORTE". -/
def tCRUZ_DA_MORTE : String := "CRUZ_DA_MORTE"

/-- Programmatic trigger key "CRUZ_DOURADA". -/
def tCRUZ_DOURADA : String := "CRUZ_DOURADA"

/-- Programmatic trigger key "HILO_COMPRA". -/
def tHILO_COMPRA : String := "HILO_COMPRA"

/-- Programmatic trigger key "HILO_VENDA". -/
def tHILO_VENDA : String := "HILO_VENDA"

/-- Programmatic trigger key "MEDIA_MOVEL_CIMA". -/
def tMEDIA_MOVEL_CIMA : String := "MEDIA_MOVEL_CIMA"

/-- Programmatic trigger key "MEDIA_MOVEL_BAIXO". -/
def tMEDIA_MOVEL_BAIXO : String := "MEDIA_MOVEL_BAIXO"

/-- The fields of the live per-symbol analysis snapshot that
`_check_and_trigger_alerts` reads (all always present in the snapshot built
by `_analyze_symbol`). -/
structure AnalysisData where
  price : ℚ
  rsi_value : ℚ
  macd_value : ℚ
  bollinger_signal : String
  macd_signal : String
  mme_cross : String
  mme_200 : ℚ
  hilo_signal : String
  media_movel_cross : List (ℚ × String)
deriving DecidableEq, Repr

/-- One live alert-condition configuration entry `{enabled, value}`
(`value` may be absent). -/
structure LiveCond where
  enabled : Bool
  value : Option ℚ
deriving DecidableEq, Repr

/-- A triggered live alert: timestamp, symbol, programmatic trigger key and
the analysis snapshot.  The human-readable `message` string and the Telegram
side effect are not modelled (no claim reads them). -/
structure TrigAlert where
  ts : ℤ
  symbol : String
  trigger_key : String
  snapshot : AnalysisData
deriving DecidableEq, Repr

/-- `conditions.get(key, {})`. -/
def condOf (conds : List (String × LiveCond)) (key : String) : LiveCond :=
  (conds.lookup key).getD (LiveCond.mk false none)

/-- Assignment `dict[key] = v` on an association-list dictionary. -/
def assocSet (m : List (String × ℤ)) (key : String) (v : ℤ) : List (String × ℤ) :=
  if m.any (fun kv => kv.1 == key) then
    m.map (fun kv => if kv.1 == key then (kv.1, v) else kv)
  else m ++ [(key, v)]

/-- The `death_cross_active` filter-mode update at the top of
`_check_and_trigger_alerts`: entered on a "Cruz da Morte" signal, left on a
"Cruz Dourada" signal, otherwise unchanged (and persisted on the config). -/
def deathCrossUpdate (a : AnalysisData) (dcaIn : Bool) : Bool :=
  if a.mme_cross = sCruzMorte then true
  else if a.mme_cross = sCruzDourada then false
  else dcaIn

/-- The `active_triggers` list of `_check_and_trigger_alerts` (the
programmatic keys, in source order).  The two buy-side conditions
`hilo_compra` and `media_movel_cima` are only tested when the death-cross
filter mode is inactive.  Config `value` fields accessed directly by the
source (`conditions[key]['value']`) are read with a 0 default here: the
claims never exercise an enabled condition with a missing value. -/
def activeTriggers (conds : List (String × LiveCond)) (a : AnalysisData)
    (death_cross_active : Bool) : List String :=
  (if (condOf conds cPRECO_ABAIXO).enabled &&
      decide (a.price ≤ ((condOf conds cPRECO_ABAIXO).value.getD 0)) then
    [tPRECO_ABAIXO] else []) ++
  (if (condOf conds cPRECO_ACIMA).enabled &&
      decide (((condOf conds cPRECO_ACIMA).value.getD 0) ≤ a.price) then
    [tPRECO_ACIMA] else []) ++
  (if (condOf conds kRsiSv).enabled &&
      decide (a.rsi_value ≤ ((condOf conds kRsiSv).value.getD 0)) then
    [tRSI_SOBREVENDA] else []) ++
  (if (condOf conds kRsiSc).enabled &&
      decide (((condOf conds kRsiSc).value.getD 75) ≤ a.rsi_value) then
    [tRSI_SOBRECOMPRA] else []) ++
  (if (condOf conds kBollAb).enabled && (a.bollinger_signal == sAbaixoBanda) then
    [tBANDA_INFERIOR] else []) ++
  (if (condOf conds kBollAc).enabled && (a.bollinger_signal == sAcimaBanda) then
    [tBANDA_SUPERIOR] else []) ++
  (if (condOf conds kMacdBaixa).enabled && (a.macd_signal == sBaixa) then
    [tMACD_BAIXA] else []) ++
  (if (condOf conds kMacdAlta).enabled && (a.macd_signal == sAlta) &&
      decide (a.rsi_value < 30) then
    [tMACD_ALTA] else []) ++
  (if (condOf conds kMorte).enabled && (a.mme_cross == sCruzMorte) &&
      decide (a.price < a.mme_200) then
    [tCRUZ_DA_MORTE] else []) ++
  (if (condOf conds kDourada).enabled && (a.mme_cross == sCruzDourada) then
    [tCRUZ_DOURADA] else []) ++
  (if !death_cross_active then
    (if (condOf conds kHiloC).enabled && (a.hilo_signal == sHiloBuy) then
      [tHILO_COMPRA] else []) ++
    (if (condOf conds kMMC).enabled &&
        ((a.media_movel_cross.lookup ((condOf conds kMMC).value.getD 200)).getD sNenhum
          == sAlta) && decide (0 < a.macd_value) then
      [tMEDIA_MOVEL_CIMA] else [])
  else []) ++
  (if (condOf conds kHiloV).enabled && (a.hilo_signal == sHiloSell) then
    [tHILO_VENDA] else []) ++
  (if (condOf conds kMMB).enabled &&
      ((a.media_movel_cross.lookup ((condOf conds kMMB).value.getD 17)).getD sNenhum
        == sBaixa) then
    [tMEDIA_MOVEL_BAIXO] else [])

/-- The cooldown loop of `_check_and_trigger_alerts`: a trigger whose key
last fired less than `cooldownMin` minutes ago is skipped; any other trigger
emits an alert and records `now` as its last firing time. -/
def cooldownFold (symbol : String) (cooldownMin : ℤ) (a : AnalysisData) (now : ℤ)
    (acc : List TrigAlert × List (String × ℤ)) : List String →
    List TrigAlert × List (String × ℤ)
  | [] => acc
  | key :: rest =>
    match acc.2.lookup key with
    | some last =>
      if now - last < cooldownMin then cooldownFold symbol cooldownMin a now acc rest
      else
        cooldownFold symbol cooldownMin a now
          (acc.1 ++ [TrigAlert.mk now symbol key a], assocSet acc.2 key now) rest
    | none =>
      cooldownFold symbol cooldownMin a now
        (acc.1 ++ [TrigAlert.mk now symbol key a], assocSet acc.2 key now) rest

/-- monitoring_service.py `_check_and_trigger_alerts`: state in is the
`death_cross_active` flag and the `triggered_conditions` cooldown map stored
on the alert config; returns the alerts fired this step, the updated
cooldown map and the updated flag. -/
def check_and_trigger_alerts (symbol : String) (conds : List (String × LiveCond))
    (cooldownMin : ℤ) (dcaIn : Bool) (cooldowns : List (String × ℤ))
    (a : AnalysisData) (now : ℤ) : List TrigAlert × List (String × ℤ) × Bool :=
  let death_cross_active := deathCrossUpdate a dcaIn
  let fin := cooldownFold symbol cooldownMin a now ([], cooldowns)
    (activeTriggers conds a death_cross_active)
  (fin.1, fin.2, death_cross_active)

/-- The per-symbol live-loop state persisted on the alert config between
evaluation steps: the death-cross filter flag and the cooldown map.  (The
loop persists the cooldown map only when alerts fired, which is equivalent:
the map is only modified when an alert is emitted.) -/
structure LiveState where
  dca : Bool
  cooldowns : List (String × ℤ)
deriving DecidableEq, Repr

/-- One live evaluation step: the emitted alerts plus the updated state. -/
def liveStep (symbol : String) (conds : List (String × LiveCond)) (cooldownMin : ℤ)
    (st : LiveState) (inp : AnalysisData × ℤ) : List TrigAlert × LiveState :=
  let r := check_and_trigger_alerts symbol conds cooldownMin st.dca st.cooldowns inp.1 inp.2
  (r.1, LiveState.mk r.2.2 r.2.1)

/-- The live loop over a sequence of evaluation inputs `(analysis, now)`:
the per-step emitted alerts and post-step states. -/
def liveRun (symbol : String) (conds : List (String × LiveCond)) (cooldownMin : ℤ)
    (st : LiveState) : List (AnalysisData × ℤ) → List (List TrigAlert × LiveState)
  | [] => []
  | inp :: rest =>
    let r := liveStep symbol conds cooldownMin st inp
    r :: liveRun symbol conds cooldownMin r.2 rest

/-! General lemmas about the series combinators. -/

/-- Indexing a series built as `(List.range n).map f`. -/
theorem getD_map_range {α : Type} (f : Nat → α) (n i : Nat) (d : α) :
    ((List.range n).map f).getD i d = if i < n then f i else d := by
  simp only [List.getD_eq_getElem?_getD, List.getElem?_map]
  rcases Nat.lt_or_ge i n with h | h
  · rw [List.getElem?_range h]; simp [h]
  · rw [List.getElem?_eq_none (by simpa using h)]
    simp [Nat.not_lt.mpr h]

/-- Indexing below the cut leaves a `take`-prefix unchanged. -/
theorem getD_take_eq {α : Type} (xs : List α) (n i : Nat) (d : α) (h : i < n) :
    (xs.take n).getD i d = xs.getD i d := by
  simp [List.getD_eq_getElem?_getD, List.getElem?_take, h]

theorem ewmAux_length (a p : ℚ) (xs : List ℚ) : (ewmAux a p xs).length = xs.length := by
  induction xs generalizing p with
  | nil => rfl
  | cons x rest ih => simp [ewmAux, ih]

theorem ewmMean_length (xs : List ℚ) (s : Nat) : (ewmMean xs s).length = xs.length := by
  cases xs with
  | nil => rfl
  | cons x rest => simp [ewmMean, ewmAux_length]

/-- The exponential smoothing is causal: it commutes with taking a prefix. -/
theorem ewmAux_take (a p : ℚ) (xs : List ℚ) (n : Nat) :
    ewmAux a p (xs.take n) = (ewmAux a p xs).take n := by
  induction xs generalizing p n with
  | nil => simp [ewmAux]
  | cons x rest ih =>
    cases n with
    | zero => simp [ewmAux]
    | succ m => simp [ewmAux, ih]

theorem ewmMean_take (xs : List ℚ) (s n : Nat) :
    ewmMean (xs.take n) s = (ewmMean xs s).take n := by
  cases xs with
  | nil => simp [ewmMean]
  | cons x rest =>
    cases n with
    | zero => simp [ewmMean]
    | succ m => simp [ewmMean, ewmAux_take]

theorem macdLine_length (close : List ℚ) (f s : Nat) :
    (macdLine close f s).length = close.length := by
  simp [macdLine, ewmMean_length]

theorem macdLine_take (close : List ℚ) (f s : Nat) (n : Nat) :
    macdLine (close.take n) f s = (macdLine close f s).take n := by
  simp only [macdLine, ewmMean_take]
  exact List.take_zipWith.symm

theorem macdSignalLine_take (close : List ℚ) (f s g n : Nat) :
    macdSignalLine (close.take n) f s g = (macdSignalLine close f s g).take n := by
  rw [macdSignalLine, macdLine_take, ewmMean_take, macdSignalLine]

theorem macdSignalLine_length (close : List ℚ) (f s g : Nat) :
    (macdSignalLine close f s g).length = close.length := by
  simp [macdSignalLine, ewmMean_length, macdLine_length]

theorem pshift_length (k : Nat) (xs : List (Option ℚ)) :
    (pshift k xs).length = xs.length := by
  simp [pshift]

/-- `shift` is causal: it commutes with taking a prefix. -/
theorem pshift_take (k : Nat) (xs : List (Option ℚ)) (n : Nat) :
    pshift k (xs.take n) = (pshift k xs).take n := by
  apply List.ext_getElem?
  intro i
  simp only [pshift, List.length_take, List.getElem?_take, List.getElem?_append,
    List.getElem?_replicate, List.length_replicate, List.length_append]
  rcases Nat.lt_or_ge i k with hik | hik
  · split_ifs <;> simp_all <;> omega
  · rcases Nat.lt_or_ge (i - k) n with hin | hin
    · split_ifs <;> simp_all [List.getElem?_take] <;> omega
    · split_ifs <;> simp_all [List.getElem?_take] <;>
        first
          | omega
          | (rw [List.getElem?_eq_none (by simp; omega)])

theorem calculate_ema_take (xs : List ℚ) (p n : Nat) :
    calculate_ema (xs.take n) p = (calculate_ema xs p).take n := by
  rw [calculate_ema, ewmMean_take, List.map_take, calculate_ema]

theorem winEnd_take (xs : List ℚ) (p n i : Nat) (h : i + 1 ≤ n) :
    winEnd (xs.take n) p i = winEnd xs p i := by
  rw [winEnd, List.take_take, Nat.min_eq_left h, winEnd]

theorem calculate_sma_take (xs : List ℚ) (p n : Nat) :
    calculate_sma (xs.take n) p = (calculate_sma xs p).take n := by
  apply List.ext_getElem?
  intro i
  simp only [calculate_sma, List.getElem?_take, List.getElem?_map, List.length_take]
  rcases Nat.lt_or_ge i n with hin | hin
  · rcases Nat.lt_or_ge i xs.length with hil | hil
    · rw [List.getElem?_range (by omega), List.getElem?_range hil]
      simp [winEnd_take xs p n i (by omega), hin]
    · rw [List.getElem?_eq_none (by simp; omega), List.getElem?_eq_none (by simp; omega)]
      simp [hin]
  · rw [List.getElem?_eq_none (by simp; omega)]
    simp [Nat.not_lt.mpr hin]

theorem calculate_sma_length (xs : List ℚ) (p : Nat) :
    (calculate_sma xs p).length = xs.length := by
  simp [calculate_sma]

theorem calculate_ema_length (xs : List ℚ) (p : Nat) :
    (calculate_ema xs p).length = xs.length := by
  simp [calculate_ema, ewmMean_length]

theorem hiloMa_length (maType : String) (xs : List ℚ) (l o : Nat) :
    (hiloMa maType xs l o).length = xs.length := by
  rw [hiloMa]
  split <;> simp [pshift_length, calculate_ema_length, calculate_sma_length]

theorem hiloMa_take (maType : String) (xs : List ℚ) (l o n : Nat) :
    hiloMa maType (xs.take n) l o = (hiloMa maType xs l o).take n := by
  rw [hiloMa, hiloMa]
  split
  · rw [calculate_ema_take, pshift_take]
  · rw [calculate_sma_take, pshift_take]

theorem crossAboveAt_take (close : List ℚ) (M : List (Option ℚ)) (n i : Nat) (hi : i < n) :
    crossAboveAt (close.take n) (M.take n) i = crossAboveAt close M i := by
  simp only [crossAboveAt, List.map_take, pshift_take]
  rw [getD_take_eq _ _ _ _ hi, getD_take_eq _ _ _ _ hi, getD_take_eq _ _ _ _ hi,
    getD_take_eq _ _ _ _ hi]

theorem crossBelowAt_take (close : List ℚ) (M : List (Option ℚ)) (n i : Nat) (hi : i < n) :
    crossBelowAt (close.take n) (M.take n) i = crossBelowAt close M i := by
  simp only [crossBelowAt, List.map_take, pshift_take]
  rw [getD_take_eq _ _ _ _ hi, getD_take_eq _ _ _ _ hi, getD_take_eq _ _ _ _ hi,
    getD_take_eq _ _ _ _ hi]

theorem oLt_none_left (y : Option ℚ) : oLt none y = false := by
  cases y <;> rfl

theorem oLt_none_right (x : Option ℚ) : oLt x none = false := by
  cases x <;> rfl

theorem oLt_some_some (a b : ℚ) : oLt (some a) (some b) = decide (a < b) := rfl

theorem oLe_none_left (y : Option ℚ) : oLe none y = false := by
  cases y <;> rfl

theorem oLe_none_right (x : Option ℚ) : oLe x none = false := by
  cases x <;> rfl

theorem oLe_some_some (a b : ℚ) : oLe (some a) (some b) = decide (a ≤ b) := rfl

theorem pshift_getD_lt (k : Nat) (xs : List (Option ℚ)) (i : Nat) (hik : i < k)
    (hlen : i < xs.length) : (pshift k xs).getD i none = none := by
  simp only [pshift, List.getD_eq_getElem?_getD, List.getElem?_take, hlen, if_pos]
  rw [List.getElem?_append, List.length_replicate, if_pos hik, List.getElem?_replicate,
    if_pos hik]
  rfl

theorem pshift_getD_ge (k : Nat) (xs : List (Option ℚ)) (i : Nat) (hik : k ≤ i)
    (hlen : i < xs.length) :
    (pshift k xs).getD i none = xs.getD (i - k) none := by
  simp only [pshift, List.getD_eq_getElem?_getD, List.getElem?_take, hlen, if_pos]
  rw [List.getElem?_append_right (by simp; omega), List.length_replicate]

/-- The crossover and crossunder masks on a common moving average cannot both
hold at a bar: one needs `ma < close`, the other `close < ma`. -/
theorem crossAbove_crossBelow_not_both (close : List ℚ) (M : List (Option ℚ)) (i : Nat) :
    ¬(crossAboveAt close M i = true ∧ crossBelowAt close M i = true) := by
  rintro ⟨ha, hb⟩
  simp only [crossAboveAt, crossBelowAt, Bool.and_eq_true] at ha hb
  obtain ⟨-, ha2⟩ := ha
  obtain ⟨-, hb2⟩ := hb
  cases hM : M.getD i none <;> cases hc : (close.map some).getD i none <;>
    rw [hM, hc] at ha2 hb2 <;> simp [oLt] at ha2 hb2
  exact absurd (lt_trans ha2 hb2) (lt_irrefl _)

theorem closesOf_take (d : List Bar) (n : Nat) :
    closesOf (d.take n) = (closesOf d).take n := by
  simp [closesOf, List.map_take]

theorem highsOf_take (d : List Bar) (n : Nat) :
    highsOf (d.take n) = (highsOf d).take n := by
  simp [highsOf, List.map_take]

theorem lowsOf_take (d : List Bar) (n : Nat) :
    lowsOf (d.take n) = (lowsOf d).take n := by
  simp [lowsOf, List.map_take]

theorem pshift_one_getD_zero (xs : List (Option ℚ)) : (pshift 1 xs).getD 0 none = none := by
  cases xs with
  | nil => rfl
  | cons x rest => exact pshift_getD_lt 1 _ 0 Nat.one_pos (by simp)

/-- At bar 0 the shifted comparison is against NaN, so no crossover fires. -/
theorem crossAboveAt_zero (close : List ℚ) (M : List (Option ℚ)) :
    crossAboveAt close M 0 = false := by
  simp only [crossAboveAt, pshift_one_getD_zero, oLe_none_left, Bool.false_and]

theorem crossBelowAt_zero (close : List ℚ) (M : List (Option ℚ)) :
    crossBelowAt close M 0 = false := by
  simp only [crossBelowAt, pshift_one_getD_zero, oLe_none_left, Bool.false_and]

/-- Full-series vs live equivalence of `calculate_media_movel_cross`: the
crossover state at bar `t` of the series mode equals the live mode run on the
prefix through `t`, for every `t` past the warm-up guard. -/
theorem mmc_full_eq_live (d : List Bar) (p t : Nat) (ht : t < d.length)
    (hw : p + 1 ≤ t + 1) :
    calculate_media_movel_cross_live (some (d.take (t + 1))) p =
      (mmcSeriesOf d p).getD t sNenhum := by
  have hlen : (d.take (t + 1)).length = t + 1 := by rw [List.length_take]; omega
  have hg : ¬ d.length < p + 1 := by omega
  have hg' : ¬ (d.take (t + 1)).length < p + 1 := by rw [hlen]; omega
  have hrhs : (mmcSeriesOf d p).getD t sNenhum = mmcAt d p t := by
    rw [mmcSeriesOf, if_neg hg, getD_map_range, if_pos ht]
  rw [hrhs]
  rcases Nat.eq_zero_or_pos t with ht0 | ht1
  · subst ht0
    have h2 : (d.take 1).length < 2 := by rw [hlen]; omega
    simp [calculate_media_movel_cross_live, hg', h2, mmcAt,
      crossAboveAt_zero, crossBelowAt_zero]
  · have h2 : ¬ (d.take (t + 1)).length < 2 := by rw [hlen]; omega
    have hub : crossAboveAt (closesOf (d.take (t + 1)))
        (calculate_ema (closesOf (d.take (t + 1))) p) ((d.take (t + 1)).length - 1) =
        crossAboveAt (closesOf d) (calculate_ema (closesOf d) p) t := by
      rw [hlen, Nat.add_sub_cancel, closesOf_take, calculate_ema_take]
      exact crossAboveAt_take _ _ _ t (Nat.lt_succ_self t)
    have hdb : crossBelowAt (closesOf (d.take (t + 1)))
        (calculate_ema (closesOf (d.take (t + 1))) p) ((d.take (t + 1)).length - 1) =
        crossBelowAt (closesOf d) (calculate_ema (closesOf d) p) t := by
      rw [hlen, Nat.add_sub_cancel, closesOf_take, calculate_ema_take]
      exact crossBelowAt_take _ _ _ t (Nat.lt_succ_self t)
    simp only [calculate_media_movel_cross_live, if_neg hg', if_neg h2, hub, hdb, mmcAt]
    by_cases hA : crossAboveAt (closesOf d) (calculate_ema (closesOf d) p) t = true
    · have hB : ¬ crossBelowAt (closesOf d) (calculate_ema (closesOf d) p) t = true :=
        fun hB => crossAbove_crossBelow_not_both _ _ _ ⟨hA, hB⟩
      simp [hA, hB]
    · simp [hA]

/-- Full-series vs live equivalence of `calculate_macd`: at every bar `t`
past the warm-up guard, the live mode run on the prefix through `t` returns
the series-mode crossover state at index `t` together with the macd line,
signal line and histogram values at index `t` of the full computation. -/
theorem macd_full_eq_live (close : List ℚ) (f s g t : Nat) (ht : t < close.length)
    (hw : s + g ≤ t + 1) :
    calculate_macd_live (some (close.take (t + 1))) f s g =
      ((macdSeriesOf close f s g).getD t sNenhum,
       (macdLine close f s).getD t 0,
       (macdSignalLine close f s g).getD t 0,
       (List.zipWith (fun a b => a - b) (macdLine close f s)
         (macdSignalLine close f s g)).getD t 0) := by
  have hlen : (close.take (t + 1)).length = t + 1 := by rw [List.length_take]; omega
  have hg : ¬ close.length < s + g := by omega
  have hg' : ¬ (close.take (t + 1)).length < s + g := by rw [hlen]; omega
  have hrhs : (macdSeriesOf close f s g).getD t sNenhum =
      macdCrossAt (macdLine close f s) (macdSignalLine close f s g) t := by
    rw [macdSeriesOf, if_neg hg, macdSeriesCore, getD_map_range, if_pos ht]
  have e2 : t + 1 - 2 = t - 1 := by omega
  have ht1 : t - 1 < t + 1 := by omega
  simp only [calculate_macd_live, if_neg hg', macdLine_take, macdSignalLine_take, hlen,
    hrhs, Nat.add_sub_cancel, e2, ← List.take_zipWith,
    getD_take_eq _ (t + 1) t _ (Nat.lt_succ_self t), getD_take_eq _ (t + 1) (t - 1) _ ht1,
    macdCrossAt, show (2 ≤ t + 1) ↔ (1 ≤ t) from by omega]
  rw [if_neg (show ¬ t + 1 < s + g by omega)]

/-- Pointwise dominance between possibly-NaN series entries: wherever both
are defined, the first value is at most the second. -/
def optLeP (a b : Option ℚ) : Prop := ∀ x y, a = some x → b = some y → x ≤ y

theorem ewmAlpha_nonneg (s : Nat) : 0 ≤ ewmAlpha s := by
  rw [ewmAlpha]
  positivity

theorem ewmAlpha_le_one (s : Nat) (h : 1 ≤ s) : ewmAlpha s ≤ 1 := by
  rw [ewmAlpha, div_le_one (by positivity)]
  have hs : (1 : ℚ) ≤ (s : ℚ) := by exact_mod_cast h
  linarith

theorem ewmAux_mono (a : ℚ) (h0 : 0 ≤ a) (h1 : a ≤ 1) {xs ys : List ℚ}
    (hxy : List.Forall₂ (· ≤ ·) xs ys) :
    ∀ p q : ℚ, p ≤ q → List.Forall₂ (· ≤ ·) (ewmAux a p xs) (ewmAux a q ys) := by
  induction hxy with
  | nil => exact fun _ _ _ => List.Forall₂.nil
  | @cons x y xs ys hxyh _ ih =>
    intro p q hpq
    rw [ewmAux, ewmAux]
    have hv : a * x + (1 - a) * p ≤ a * y + (1 - a) * q :=
      add_le_add (mul_le_mul_of_nonneg_left hxyh h0)
        (mul_le_mul_of_nonneg_left hpq (by linarith))
    exact List.Forall₂.cons hv (ih _ _ hv)

/-- The exponential moving average is monotone in its input series. -/
theorem ewmMean_mono {xs ys : List ℚ} (hxy : List.Forall₂ (· ≤ ·) xs ys) (s : Nat)
    (hs : 1 ≤ s) : List.Forall₂ (· ≤ ·) (ewmMean xs s) (ewmMean ys s) := by
  cases hxy with
  | nil => exact List.Forall₂.nil
  | @cons x y xs ys hxyh htl =>
    rw [ewmMean, ewmMean]
    exact List.Forall₂.cons hxyh
      (ewmAux_mono _ (ewmAlpha_nonneg s) (ewmAlpha_le_one s hs) htl _ _ hxyh)

theorem qsum_mono {xs ys : List ℚ} (h : List.Forall₂ (· ≤ ·) xs ys) : qsum xs ≤ qsum ys := by
  induction h with
  | nil => exact le_refl 0
  | cons hh _ ih => simpa [qsum] using add_le_add hh ih

theorem forall₂_optLeP_map_some {xs ys : List ℚ} (h : List.Forall₂ (· ≤ ·) xs ys) :
    List.Forall₂ optLeP (xs.map some) (ys.map some) := by
  induction h with
  | nil => exact List.Forall₂.nil
  | cons hh _ ih =>
    refine List.Forall₂.cons (fun x y hx hy => ?_) ih
    rw [Option.some_inj] at hx hy
    rw [← hx, ← hy]
    exact hh

/-- The rolling mean (SMA) is monotone in its input series. -/
theorem calculate_sma_mono {xs ys : List ℚ} (h : List.Forall₂ (· ≤ ·) xs ys) (p : Nat) :
    List.Forall₂ optLeP (calculate_sma xs p) (calculate_sma ys p) := by
  have hlen := h.length_eq
  rw [calculate_sma, calculate_sma, ← hlen]
  rw [List.forall₂_map_left_iff, List.forall₂_map_right_iff]
  rw [List.forall₂_same]
  intro i _
  intro a b ha hb
  by_cases hp : p ≤ i + 1
  · rw [if_pos hp] at ha hb
    rw [Option.some_inj] at ha hb
    rw [← ha, ← hb]
    have hwin : List.Forall₂ (· ≤ ·) (winEnd xs p i) (winEnd ys p i) :=
      List.forall₂_drop _ (List.forall₂_take _ h)
    have hq : qsum (winEnd xs p i) ≤ qsum (winEnd ys p i) := qsum_mono hwin
    rcases Nat.eq_zero_or_pos p with hp0 | hp0
    · simp [hp0]
    · have : (0 : ℚ) < (p : ℚ) := by exact_mod_cast hp0
      exact (div_le_div_iff_of_pos_right this).mpr hq
  · rw [if_neg hp] at ha
    exact absurd ha (by simp)

theorem forall₂_optLeP_replicate (k : Nat) :
    List.Forall₂ optLeP (List.replicate k (none : Option ℚ)) (List.replicate k none) := by
  induction k with
  | zero => exact List.Forall₂.nil
  | succ m ih => exact List.Forall₂.cons (fun x y hx => by simp at hx) ih

theorem pshift_optLeP {xs ys : List (Option ℚ)} (h : List.Forall₂ optLeP xs ys) (k : Nat) :
    List.Forall₂ optLeP (pshift k xs) (pshift k ys) := by
  rw [pshift, pshift, ← h.length_eq]
  exact List.forall₂_take _ (List.rel_append (forall₂_optLeP_replicate k) h)

theorem forall₂_getD_optLeP {l1 l2 : List (Option ℚ)} (h : List.Forall₂ optLeP l1 l2)
    (i : Nat) : optLeP (l1.getD i none) (l2.getD i none) := by
  rcases Nat.lt_or_ge i l1.length with hi | hi
  · have hi2 : i < l2.length := h.length_eq ▸ hi
    have hg := h.get hi hi2
    rw [List.getD_eq_getElem?_getD, List.getElem?_eq_getElem hi,
      List.getD_eq_getElem?_getD, List.getElem?_eq_getElem hi2]
    simpa [List.get_eq_getElem] using hg
  · rw [List.getD_eq_getElem?_getD, List.getElem?_eq_none (by omega)]
    exact fun x y hx => by simp at hx

/-- With well-formed bars (`low ≤ high`), the low moving average of the HiLo
indicator never exceeds the high moving average wherever both are defined. -/
theorem hiloMa_mono (d : List Bar) (len off i : Nat) (maType : String) (hlen : 1 ≤ len)
    (hb : ∀ b ∈ d, b.low ≤ b.high) :
    optLeP ((hiloMa maType (lowsOf d) len off).getD i none)
      ((hiloMa maType (highsOf d) len off).getD i none) := by
  have hcols : List.Forall₂ (· ≤ ·) (lowsOf d) (highsOf d) := by
    rw [lowsOf, highsOf, List.forall₂_map_left_iff, List.forall₂_map_right_iff,
      List.forall₂_same]
    exact hb
  apply forall₂_getD_optLeP
  rw [hiloMa, hiloMa]
  split
  · exact pshift_optLeP (forall₂_optLeP_map_some (ewmMean_mono hcols len hlen)) off
  · exact pshift_optLeP (calculate_sma_mono hcols len) off

/-- With well-formed bars, a HiLo buy and a HiLo sell signal cannot coincide
at one bar. -/
theorem hilo_not_both (d : List Bar) (len off i : Nat) (maType : String) (hlen : 1 ≤ len)
    (hb : ∀ b ∈ d, b.low ≤ b.high) :
    ¬(crossAboveAt (closesOf d) (hiloMa maType (highsOf d) len off) i = true ∧
      crossBelowAt (closesOf d) (hiloMa maType (lowsOf d) len off) i = true) := by
  rintro ⟨ha, hs⟩
  simp only [crossAboveAt, crossBelowAt, Bool.and_eq_true] at ha hs
  obtain ⟨-, ha2⟩ := ha
  obtain ⟨-, hs2⟩ := hs
  have hmono := hiloMa_mono d len off i maType hlen hb
  cases hH : (hiloMa maType (highsOf d) len off).getD i none with
  | none => rw [hH] at ha2; rw [oLt_none_left] at ha2; exact absurd ha2 (by simp)
  | some h =>
    cases hL : (hiloMa maType (lowsOf d) len off).getD i none with
    | none => rw [hL] at hs2; rw [oLt_none_right] at hs2; exact absurd hs2 (by simp)
    | some l =>
      cases hc : ((closesOf d).map some).getD i none with
      | none =>
        rw [hH, hc] at ha2
        rw [oLt_none_right] at ha2
        exact absurd ha2 (by simp)
      | some c =>
        rw [hH, hc] at ha2
        rw [hL, hc] at hs2
        rw [oLt_some_some] at ha2 hs2
        have h1 : h < c := of_decide_eq_true ha2
        have h2 : c < l := of_decide_eq_true hs2
        have h3 : l ≤ h := hmono l h hL hH
        linarith

/-- Full-series vs live equivalence of `calculate_hilo_signals`: at every bar
`t` past the warm-up guard, the live mode run on the prefix through `t`
returns the series-mode buy/sell mask values and signal string at index `t`
(for well-formed bars; the series mode resolves a buy/sell tie towards
"HiLo Sell" and the live mode towards "HiLo Buy", but a tie is impossible
when `low ≤ high`). -/
theorem hilo_full_eq_live (d : List Bar) (len off t : Nat) (maType : String)
    (ht : t < d.length) (hw : len + off + 1 ≤ t + 1) (hlen1 : 1 ≤ len)
    (hb : ∀ b ∈ d, b.low ≤ b.high) :
    calculate_hilo_signals_live (some (d.take (t + 1))) len maType off =
      ((hiloBuySeries d len off maType).getD t false,
       (hiloSellSeries d len off maType).getD t false,
       some ((hiloSeriesOf d len maType off).getD t sNenhum)) := by
  have hlen : (d.take (t + 1)).length = t + 1 := by rw [List.length_take]; omega
  have hguard : ¬(d = [] ∨ d.length < len + off + 1) := by
    rintro (h1 | h2)
    · rw [h1] at ht; exact absurd ht (by simp)
    · omega
  have hguard' : ¬(d.take (t + 1) = [] ∨ (d.take (t + 1)).length < len + off + 1) := by
    rintro (h1 | h2)
    · rw [h1] at hlen; exact absurd hlen (by simp)
    · rw [hlen] at h2; omega
  have hbuy : (hiloBuySeries (d.take (t + 1)) len off maType).getD
      ((d.take (t + 1)).length - 1) false =
      crossAboveAt (closesOf d) (hiloMa maType (highsOf d) len off) t := by
    rw [hiloBuySeries, hlen, Nat.add_sub_cancel, getD_map_range,
      if_pos (Nat.lt_succ_self t), closesOf_take, highsOf_take, hiloMa_take]
    exact crossAboveAt_take _ _ _ t (Nat.lt_succ_self t)
  have hsell : (hiloSellSeries (d.take (t + 1)) len off maType).getD
      ((d.take (t + 1)).length - 1) false =
      crossBelowAt (closesOf d) (hiloMa maType (lowsOf d) len off) t := by
    rw [hiloSellSeries, hlen, Nat.add_sub_cancel, getD_map_range,
      if_pos (Nat.lt_succ_self t), closesOf_take, lowsOf_take, hiloMa_take]
    exact crossBelowAt_take _ _ _ t (Nat.lt_succ_self t)
  have hrhs : (hiloSeriesOf d len maType off).getD t sNenhum =
      hiloSignalAt d len off maType t := by
    rw [hiloSeriesOf, if_neg hguard, getD_map_range, if_pos ht]
  have hbuy2 : (hiloBuySeries d len off maType).getD t false =
      crossAboveAt (closesOf d) (hiloMa maType (highsOf d) len off) t := by
    rw [hiloBuySeries, getD_map_range, if_pos ht]
  have hsell2 : (hiloSellSeries d len off maType).getD t false =
      crossBelowAt (closesOf d) (hiloMa maType (lowsOf d) len off) t := by
    rw [hiloSellSeries, getD_map_range, if_pos ht]
  simp only [calculate_hilo_signals_live, if_neg hguard', hbuy, hsell, hrhs, hbuy2, hsell2,
    hiloSignalAt]
  refine Prod.ext rfl (Prod.ext rfl ?_)
  simp only [Option.some_inj]
  by_cases hB : crossAboveAt (closesOf d) (hiloMa maType (highsOf d) len off) t = true
  · have hS : ¬ crossBelowAt (closesOf d) (hiloMa maType (lowsOf d) len off) t = true :=
      fun hS => hilo_not_both d len off t maType hlen1 hb ⟨hB, hS⟩
    simp [hB, hS]
  · simp [hB]

/-- C3: for every indicator that offers both a full-series and a latest/live
mode (MACD crossover, HiLo signal, moving-average cross) and every bar `t`
beyond the warm-up period, the value at index `t` of the full-series output
equals the latest-mode output computed on the prefix of the series ending at
`t`: the same crossover/signal decision, and (for MACD) exactly the same
numeric macd/signal/histogram values.  The HiLo case additionally assumes
well-formed OHLCV bars (`low ≤ high`) and a positive moving-average length,
under which the two modes' opposite tie-breaking between simultaneous buy
and sell signals is unobservable. -/
theorem C3_full_series_equals_live :
    (∀ (close : List ℚ) (f s g t : Nat), t < close.length → s + g ≤ t + 1 →
      calculate_macd_live (some (close.take (t + 1))) f s g =
        ((macdSeriesOf close f s g).getD t sNenhum,
         (macdLine close f s).getD t 0,
         (macdSignalLine close f s g).getD t 0,
         (List.zipWith (fun a b => a - b) (macdLine close f s)
           (macdSignalLine close f s g)).getD t 0)) ∧
    (∀ (d : List Bar) (len off t : Nat) (maType : String), t < d.length →
      len + off + 1 ≤ t + 1 → 1 ≤ len → (∀ b ∈ d, b.low ≤ b.high) →
      calculate_hilo_signals_live (some (d.take (t + 1))) len maType off =
        ((hiloBuySeries d len off maType).getD t false,
         (hiloSellSeries d len off maType).getD t false,
         some ((hiloSeriesOf d len maType off).getD t sNenhum))) ∧
    (∀ (d : List Bar) (p t : Nat), t < d.length → p + 1 ≤ t + 1 →
      calculate_media_movel_cross_live (some (d.take (t + 1))) p =
        (mmcSeriesOf d p).getD t sNenhum) :=
  ⟨macd_full_eq_live,
   fun d len off t maType ht hw h1 hb => hilo_full_eq_live d len off t maType ht hw h1 hb,
   mmc_full_eq_live⟩

/-- A concrete five-bar well-formed dataframe used by witnesses. -/
def dW : List Bar :=
  [Bar.mk 0 10 9 9 1, Bar.mk 1 9 8 8 1, Bar.mk 2 8 7 7 1, Bar.mk 3 7 6 6 1,
   Bar.mk 4 12 10 11 1]

/-- Witness for C3 at a concrete five-bar series and `t = 4`. -/
theorem C3_witness :
    (calculate_macd_live (some ((closesOf dW).take (4 + 1))) 1 2 2 =
      ((macdSeriesOf (closesOf dW) 1 2 2).getD 4 sNenhum,
       (macdLine (closesOf dW) 1 2).getD 4 0,
       (macdSignalLine (closesOf dW) 1 2 2).getD 4 0,
       (List.zipWith (fun a b => a - b) (macdLine (closesOf dW) 1 2)
         (macdSignalLine (closesOf dW) 1 2 2)).getD 4 0)) ∧
    (calculate_hilo_signals_live (some (dW.take (4 + 1))) 2 sEMA 0 =
      ((hiloBuySeries dW 2 0 sEMA).getD 4 false,
       (hiloSellSeries dW 2 0 sEMA).getD 4 false,
       some ((hiloSeriesOf dW 2 sEMA 0).getD 4 sNenhum))) ∧
    (calculate_media_movel_cross_live (some (dW.take (4 + 1))) 2 =
      (mmcSeriesOf dW 2).getD 4 sNenhum) :=
  ⟨C3_full_series_equals_live.1 (closesOf dW) 1 2 2 4
      (by norm_num [dW, closesOf]) (by norm_num),
   C3_full_series_equals_live.2.1 dW 2 0 4 sEMA (by norm_num [dW]) (by norm_num)
      (by norm_num) (by norm_num [dW]),
   C3_full_series_equals_live.2.2 dW 2 4 (by norm_num [dW]) (by norm_num)⟩

/-! Warm-up lemmas for C4. -/

theorem winEnd_length_of_le (xs : List ℚ) (p i : Nat) (h1 : i < xs.length)
    (h2 : i + 1 ≤ p) : (winEnd xs p i).length = i + 1 := by
  rw [winEnd, List.length_drop, List.length_take]
  omega

/-- SMA warm-up: all-NaN below `period` bars, first defined value at the last
index when the length is exactly `period`. -/
theorem sma_warmup (xs : List ℚ) (period : Nat) (hp : 1 ≤ period) :
    (xs.length < period → ∀ o ∈ calculate_sma xs period, o = none) ∧
    (xs.length = period →
      (calculate_sma xs period).getD (period - 1) none ≠ none ∧
      ∀ i, i < period - 1 → (calculate_sma xs period).getD i none = none) := by
  constructor
  · intro hlt o ho
    rw [calculate_sma] at ho
    obtain ⟨i, hi, rfl⟩ := List.mem_map.mp ho
    rw [List.mem_range] at hi
    rw [if_neg (by omega)]
  · intro hlen
    constructor
    · rw [calculate_sma, getD_map_range, if_pos (by omega), if_pos (by omega)]
      simp
    · intro i hi
      rw [calculate_sma, getD_map_range, if_pos (by omega), if_neg (by omega)]

/-- EMA has no warm-up NaN: every output entry is defined, and the series is
seeded by the first input value. -/
theorem ema_defined (xs : List ℚ) (p : Nat) :
    (∀ o ∈ calculate_ema xs p, o ≠ none) ∧
    (xs ≠ [] → (calculate_ema xs p).getD 0 none = some (xs.getD 0 0)) := by
  constructor
  · intro o ho
    rw [calculate_ema] at ho
    obtain ⟨x, -, rfl⟩ := List.mem_map.mp ho
    simp
  · intro hne
    cases xs with
    | nil => exact absurd rfl hne
    | cons x rest => rw [calculate_ema, ewmMean]; rfl

/-- RSI warm-up: all-NaN below `period + 1` bars; when the length is exactly
`period + 1`, the only defined entry is the last one. -/
theorem rsi_warmup (d : List Bar) (period : Nat) :
    (d.length < period + 1 → rsiSeriesOf d period = List.replicate d.length none) ∧
    (d.length = period + 1 → 1 ≤ period →
      (rsiSeriesOf d period).getD period none ≠ none ∧
      ∀ i, i < period → (rsiSeriesOf d period).getD i none = none) := by
  constructor
  · intro hlt
    rw [rsiSeriesOf, if_pos (Or.inr hlt)]
  · intro hlen hp
    have hne : ¬(d = [] ∨ d.length < period + 1) := by
      rintro (h1 | h2)
      · rw [h1] at hlen; exact absurd hlen.symm (by simp)
      · omega
    constructor
    · rw [rsiSeriesOf, if_neg hne, getD_map_range, if_pos (by omega), rsiAt,
        if_neg (by omega)]
      by_cases hal : qsum ((List.range period).map (fun j =>
          max ((closesOf d).getD (period - j - 1) 0 - (closesOf d).getD (period - j) 0) 0))
          / (period : ℚ) = 0
      · simp only []
        split <;> simp_all
      · simp only []
        split
        · simp
        · split <;> simp
    · intro i hi
      rw [rsiSeriesOf, if_neg hne, getD_map_range, if_pos (by omega), rsiAt,
        if_pos (Or.inl hi)]

/-- Bollinger warm-up under `min_periods=1`: all-NaN below `period` bars; at
exactly `period` bars the middle band is defined at every index while the
upper/lower bands are NaN exactly at index 0 (a single observation has no
sample standard deviation). -/
theorem bb_warmup (close : List ℚ) (period : Nat) (k : ℚ) (hp : 2 ≤ period) :
    (close.length < period →
      calculate_bollinger_bands close period k =
        (List.replicate close.length none, List.replicate close.length none,
         List.replicate close.length none)) ∧
    (close.length = period →
      (∀ i, i < close.length →
        (calculate_bollinger_bands close period k).2.2.getD i none ≠ none) ∧
      ((calculate_bollinger_bands close period k).1.getD 0 none = none ∧
       (calculate_bollinger_bands close period k).2.1.getD 0 none = none) ∧
      (∀ i, 1 ≤ i → i < close.length →
        (calculate_bollinger_bands close period k).1.getD i none ≠ none ∧
        (calculate_bollinger_bands close period k).2.1.getD i none ≠ none)) := by
  constructor
  · intro hlt
    rw [calculate_bollinger_bands, if_pos (Or.inr hlt)]
  · intro hlen
    have hne : ¬(close = [] ∨ close.length < period) := by
      rintro (h1 | h2)
      · rw [h1] at hlen; exact absurd hlen.symm (by simp; omega)
      · omega
    have hwl : ∀ i, i < close.length → (winEnd close period i).length = i + 1 :=
      fun i hi => winEnd_length_of_le close period i hi (by omega)
    refine ⟨?_, ⟨?_, ?_⟩, ?_⟩
    · intro i hi
      rw [calculate_bollinger_bands, if_neg hne]
      simp only [rollingMeanMin1, getD_map_range, if_pos hi]
      simp
    · rw [calculate_bollinger_bands, if_neg hne]
      simp only [getD_map_range, if_pos (show 0 < close.length by omega)]
      rw [if_neg (by rw [hwl 0 (by omega)]; omega)]
    · rw [calculate_bollinger_bands, if_neg hne]
      simp only [getD_map_range, if_pos (show 0 < close.length by omega)]
      rw [if_neg (by rw [hwl 0 (by omega)]; omega)]
    · intro i h1 hi
      rw [calculate_bollinger_bands, if_neg hne]
      constructor <;>
        · simp only [getD_map_range, if_pos hi]
          rw [if_pos (by rw [hwl i hi]; omega)]
          simp

/-- HMA warm-up: all-NaN below `period` bars; moreover, at exactly `period`
bars the output is still all-NaN whenever `int(√period) ≥ 2`, because the
innermost WMA needs `int(√period)` consecutive defined entries of the
difference series, of which only the very last one is defined. -/
theorem wma_length (s : List (Option ℚ)) (p : Nat) : (wma s p).length = s.length := by
  simp [wma]

/-- Indexing a zipWith of two option series. -/
theorem getD_zipWith_opt (f : Option ℚ → Option ℚ → Option ℚ)
    (as bs : List (Option ℚ)) (j : Nat) (hj : j < as.length) (hj2 : j < bs.length) :
    (List.zipWith f as bs).getD j none = f (as.getD j none) (bs.getD j none) := by
  rw [List.getD_eq_getElem?_getD,
    List.getElem?_eq_getElem (by rw [List.length_zipWith]; omega), List.getElem_zipWith,
    List.getD_eq_getElem?_getD, List.getElem?_eq_getElem hj,
    List.getD_eq_getElem?_getD, List.getElem?_eq_getElem hj2]
  rfl

/-- A WMA entry whose window contains a NaN is NaN. -/
theorem wma_getD_none (s : List (Option ℚ)) (p i j : Nat) (hi : i < s.length)
    (hj1 : i + 1 - p ≤ j) (hj2 : j ≤ i) (hjn : s.getD j none = none) :
    (wma s p).getD i none = none := by
  rw [wma, getD_map_range, if_pos hi, if_neg]
  rintro ⟨hp, hall⟩
  have hjlen : j < s.length := by omega
  have hsj : s[j] = none := by
    rw [List.getD_eq_getElem?_getD, List.getElem?_eq_getElem hjlen] at hjn
    simpa using hjn
  have hidx : (i + 1 - p) + (j - (i + 1 - p)) = j := by omega
  have hget : ((s.take (i + 1)).drop (i + 1 - p))[j - (i + 1 - p)]? = some none := by
    rw [List.getElem?_drop, hidx, List.getElem?_take, if_pos (by omega),
      List.getElem?_eq_getElem hjlen, hsj]
  have hmem : (none : Option ℚ) ∈ (s.take (i + 1)).drop (i + 1 - p) := by
    obtain ⟨hl, heq⟩ := List.getElem?_eq_some_iff.mp hget
    rw [← heq]
    exact List.getElem_mem hl
  have := List.all_eq_true.mp hall _ hmem
  simp at this

/-- HMA warm-up: all-NaN below `period` bars; moreover, at exactly `period`
bars the output is still all-NaN whenever `int(√period) ≥ 2`, because the
innermost WMA needs `int(√period)` consecutive defined entries of the
difference series, of which only the very last one is defined. -/
theorem hma_warmup (xs : List ℚ) (period : Nat) :
    (xs.length < period → calculate_hma xs period = List.replicate xs.length none) ∧
    (2 ≤ Nat.sqrt period → xs.length = period →
      ∀ o ∈ calculate_hma xs period, o = none) := by
  constructor
  · intro hlt
    rw [calculate_hma, if_pos hlt]
  · intro hs hlen o ho
    simp only [calculate_hma] at ho
    rw [if_neg (by omega)] at ho
    obtain ⟨i, hilen, hio⟩ := List.mem_iff_getElem.mp ho
    have hdlen : (List.zipWith (fun x y => match x, y with
        | some x, some y => some (2 * x - y)
        | _, _ => none) (wma (xs.map some) (period / 2)) (wma (xs.map some) period)).length
        = xs.length := by
      simp [wma_length]
    have hi : i < xs.length := by
      rw [wma_length, hdlen] at hilen
      exact hilen
    have hp4 : 4 ≤ period := by
      have h1 := Nat.sqrt_le' period
      nlinarith
    have hgd : o = (wma (List.zipWith (fun x y => match x, y with
        | some x, some y => some (2 * x - y)
        | _, _ => none) (wma (xs.map some) (period / 2)) (wma (xs.map some) period))
          (Nat.sqrt period)).getD i none := by
      rw [List.getD_eq_getElem?_getD, List.getElem?_eq_getElem hilen, hio]
      rfl
    have hfull : (wma (xs.map some) period).getD (i + 1 - Nat.sqrt period) none = none := by
      rw [wma, getD_map_range, if_pos (by simp; omega), if_neg]
      rintro ⟨hp, -⟩
      omega
    rw [hgd]
    apply wma_getD_none _ _ _ (i + 1 - Nat.sqrt period) (by rw [hdlen]; exact hi)
      (le_refl _) (by omega)
    rw [getD_zipWith_opt _ _ _ _ (by rw [wma_length]; simp; omega)
      (by rw [wma_length]; simp; omega), hfull]
    cases (wma (xs.map some) (period / 2)).getD (i + 1 - Nat.sqrt period) none <;> rfl

/-- C4 counterexample: the claim demands that every series-producing
indicator yields an all-undefined output on inputs shorter than its
lookback, but `calculate_ema` (`ewm(span, adjust=False).mean()`) on the
one-element series `[5]` with period 3 yields the defined entry `some 5`. -/
theorem C4_counterexample :
    ([(5 : ℚ)] : List ℚ).length < 3 ∧ calculate_ema [(5 : ℚ)] 3 = [some 5] := by
  refine ⟨by norm_num, ?_⟩
  rw [calculate_ema, ewmMean]
  rfl

/-- C4 (amended): warm-up behavior as the code implements it.  SMA and RSI
behave as the claim states (all-NaN below the lookback, first defined value
at the last index when the length equals the lookback, `period + 1` for
RSI).  EMA has no NaN warm-up at all: every entry is defined and the series
is seeded by the first value.  Bollinger (computed with `min_periods=1`)
returns all-NaN below `period` bars, but at exactly `period` bars its middle
band is defined at every index and the upper/lower bands at every index
except 0.  HMA is all-NaN below `period` bars and still all-NaN at exactly
`period` bars whenever `int(√period) ≥ 2`. -/
theorem C4_warmup_amended :
    (∀ (xs : List ℚ) (period : Nat), 1 ≤ period →
      (xs.length < period → ∀ o ∈ calculate_sma xs period, o = none) ∧
      (xs.length = period →
        (calculate_sma xs period).getD (period - 1) none ≠ none ∧
        ∀ i, i < period - 1 → (calculate_sma xs period).getD i none = none)) ∧
    (∀ (xs : List ℚ) (p : Nat),
      (∀ o ∈ calculate_ema xs p, o ≠ none) ∧
      (xs ≠ [] → (calculate_ema xs p).getD 0 none = some (xs.getD 0 0))) ∧
    (∀ (close : List ℚ) (period : Nat) (k : ℚ), 2 ≤ period →
      (close.length < period →
        calculate_bollinger_bands close period k =
          (List.replicate close.length none, List.replicate close.length none,
           List.replicate close.length none)) ∧
      (close.length = period →
        (∀ i, i < close.length →
          (calculate_bollinger_bands close period k).2.2.getD i none ≠ none) ∧
        ((calculate_bollinger_bands close period k).1.getD 0 none = none ∧
         (calculate_bollinger_bands close period k).2.1.getD 0 none = none) ∧
        (∀ i, 1 ≤ i → i < close.length →
          (calculate_bollinger_bands close period k).1.getD i none ≠ none ∧
          (calculate_bollinger_bands close period k).2.1.getD i none ≠ none))) ∧
    (∀ (d : List Bar) (period : Nat),
      (d.length < period + 1 → rsiSeriesOf d period = List.replicate d.length none) ∧
      (d.length = period + 1 → 1 ≤ period →
        (rsiSeriesOf d period).getD period none ≠ none ∧
        ∀ i, i < period → (rsiSeriesOf d period).getD i none = none)) ∧
    (∀ (xs : List ℚ) (period : Nat),
      (xs.length < period → calculate_hma xs period = List.replicate xs.length none) ∧
      (2 ≤ Nat.sqrt period → xs.length = period →
        ∀ o ∈ calculate_hma xs period, o = none)) :=
  ⟨sma_warmup, ema_defined, bb_warmup, rsi_warmup, hma_warmup⟩

/-- Witness for C4 at concrete inputs for each of the five indicators. -/
theorem C4_witness :
    ((calculate_sma [(1 : ℚ), 2] 2).getD (2 - 1) none ≠ none) ∧
    ((calculate_ema [(1 : ℚ), 2] 5).getD 0 none = some (([(1 : ℚ), 2] : List ℚ).getD 0 0)) ∧
    (calculate_bollinger_bands [(1 : ℚ), 2] 3 2 =
      (List.replicate ([(1 : ℚ), 2] : List ℚ).length none,
       List.replicate ([(1 : ℚ), 2] : List ℚ).length none,
       List.replicate ([(1 : ℚ), 2] : List ℚ).length none)) ∧
    (rsiSeriesOf dW 14 = List.replicate dW.length none) ∧
    (∀ o ∈ calculate_hma [(1 : ℚ), 2, 3, 4, 5] 5, o = none) :=
  ⟨((C4_warmup_amended.1 [(1 : ℚ), 2] 2 (by norm_num)).2 (by norm_num)).1,
   (C4_warmup_amended.2.1 [(1 : ℚ), 2] 5).2 (by simp),
   (C4_warmup_amended.2.2.1 [(1 : ℚ), 2] 3 2 (by norm_num)).1 (by norm_num),
   (C4_warmup_amended.2.2.2.1 dW 14).1 (by norm_num [dW]),
   (C4_warmup_amended.2.2.2.2 [(1 : ℚ), 2, 3, 4, 5] 5).2 (by norm_num [Nat.sqrt])
     (by norm_num)⟩

/-! Deduplication lemmas for C5 and C1. -/


/-- The squares 1², …, 10², a series on which floor and rounded square-root
window lengths for period 8 differ. -/
def sq10 : List ℚ := [1, 4, 9, 16, 25, 36, 49, 64, 81, 100]

theorem qsum_append (xs ys : List ℚ) : qsum (xs ++ ys) = qsum xs + qsum ys := by
  induction xs with
  | nil => simp [qsum]
  | cons a xs ih => simp [qsum, List.foldr_cons] at ih ⊢; rw [ih]; ring

theorem qsum_range_weights (p : Nat) :
    qsum ((List.range p).map (fun j : Nat => (j : ℚ) + 1)) = (p : ℚ) * ((p : ℚ) + 1) / 2 := by
  induction p with
  | zero => simp [qsum]
  | succ p ih =>
    rw [List.range_succ, List.map_append, qsum_append, ih]
    simp [qsum]
    push_cast
    ring

/-- The weighted moving average of the source (`calculate_hma`'s helper, which
divides by the closed form `p·(p+1)/2`) agrees with the spec's weights-`1..n`
formulation everywhere. -/
theorem wma_eq_wmaSpec (s : List (Option ℚ)) (p : Nat) : wma s p = wmaSpec s p := by
  simp only [wma, wmaSpec, qsum_range_weights]

/-- `roundSqrt` really is the rounded square root. -/
theorem roundSqrt_eq_round (p : Nat) : (roundSqrt p : ℤ) = round (Real.sqrt p) := by
  set r := Nat.sqrt p with hr
  have h1 : ((r : ℝ)) ^ 2 ≤ (p : ℝ) := by exact_mod_cast Nat.sqrt_le' p
  have h2 : (p : ℝ) < ((r : ℝ) + 1) ^ 2 := by exact_mod_cast Nat.lt_succ_sqrt' p
  have hrle : (r : ℝ) ≤ Real.sqrt p := by
    have hss := Real.sqrt_le_sqrt h1
    rwa [Real.sqrt_sq (Nat.cast_nonneg r)] at hss
  rw [round_eq, roundSqrt]
  split
  · rename_i h
    have hlt : Real.sqrt p < (r : ℝ) + 1 / 2 := by
      have hp : (p : ℝ) ≤ (r : ℝ) * r + r := by exact_mod_cast h
      have : (p : ℝ) < ((r : ℝ) + 1 / 2) ^ 2 := by nlinarith
      exact (Real.sqrt_lt' (by positivity)).mpr this
    have hfl : ⌊Real.sqrt p + 1 / 2⌋ = (r : ℤ) := by
      rw [Int.floor_eq_iff]
      constructor
      · push_cast; linarith
      · push_cast; linarith
    exact hfl.symm
  · rename_i h
    push_neg at h
    have hge : (r : ℝ) + 1 / 2 ≤ Real.sqrt p := by
      have hp : (r : ℝ) * r + r + 1 ≤ (p : ℝ) := by
        have hn : r * r + r + 1 ≤ p := h
        exact_mod_cast hn
      have hsq : ((r : ℝ) + 1 / 2) ^ 2 ≤ (p : ℝ) := by nlinarith
      have hss := Real.sqrt_le_sqrt hsq
      rwa [Real.sqrt_sq (by positivity)] at hss
    have hrlt : Real.sqrt p < (r : ℝ) + 1 := by
      exact (Real.sqrt_lt' (by positivity)).mpr h2
    have hfl : ⌊Real.sqrt p + 1 / 2⌋ = (r : ℤ) + 1 := by
      rw [Int.floor_eq_iff]
      constructor
      · push_cast; linarith
      · push_cast; linarith
    rw [hfl]
    push_cast
    ring

/-- C8 (counterexample): the source's `calculate_hma` uses the *truncated*
square root (`int(np.sqrt(period))`), not the claim's `round(sqrt(period))`:
on the squares series with `period = 8` (`⌊√8⌋ = 2` but `round √8 = 3`) the
two disagree at the last bar, `853/9` versus the spec formula's `797/9`. -/
theorem C8_counterexample :
    (calculate_hma sq10 8).getD 9 none = some (853/9) ∧
    (hull_moving_average sq10 8).getD 9 none = some (797/9) ∧
    ((853 : ℚ)/9) ≠ 797/9 := by
  have h4 : wma (sq10.map some) 4 =
      [none, none, none, some 10, some 17, some 26, some 37, some 50, some 65, some 82] := by
    norm_num [wma, sq10, List.range_succ, qsum]
  have h8 : wma (sq10.map some) 8 =
      [none, none, none, none, none, none, none, some 36, some (145/3), some (188/3)] := by
    norm_num [wma, sq10, List.range_succ, qsum]
  have hd : List.zipWith (fun x y => match x, y with
      | some x, some y => some (2 * x - y)
      | _, _ => none)
      (wma (sq10.map some) 4) (wma (sq10.map some) 8) =
      [none, none, none, none, none, none, none, some 64, some (245/3), some (304/3)] := by
    rw [h4, h8]; norm_num
  refine ⟨?_, ?_, by norm_num⟩
  · have hc : calculate_hma sq10 8 =
        wma [none, none, none, none, none, none, none, some 64, some (245/3), some (304/3)] 2 := by
      simp only [calculate_hma]
      rw [if_neg (by norm_num [sq10])]
      rw [show (8 : Nat) / 2 = 4 from rfl, show Nat.sqrt 8 = 2 by norm_num [Nat.sqrt], hd]
    rw [hc]
    norm_num [wma, List.range_succ, qsum]
  · have hs : hull_moving_average sq10 8 =
        wma [none, none, none, none, none, none, none, some 64, some (245/3), some (304/3)] 3 := by
      simp only [hull_moving_average, ← wma_eq_wmaSpec]
      rw [if_neg (by norm_num [sq10])]
      rw [show (8 : Nat) / 2 = 4 from rfl, show roundSqrt 8 = 3 by norm_num [roundSqrt, Nat.sqrt], hd]
    rw [hs]
    norm_num [wma, List.range_succ, qsum]

/-- C8 (amended): `calculate_hma` is exactly the claimed composition of
weights-`1..n` WMAs — all-undefined below `period` — except that the outer
window length is the truncated square root `⌊√period⌋`, not
`round(√period)`. -/
theorem C8_hma_amended (series : List ℚ) (period : Nat) :
    calculate_hma series period =
      if series.length < period then List.replicate series.length none
      else
        wmaSpec (List.zipWith (fun x y => match x, y with
          | some x, some y => some (2 * x - y)
          | _, _ => none)
          (wmaSpec (series.map some) (period / 2))
          (wmaSpec (series.map some) period)) (Nat.sqrt period) := by
  simp only [calculate_hma, wma_eq_wmaSpec]


/-- The deduplication key of an alert record. -/
def keyOf (r : AlertRec) : Nat × String := (r.ts, r.description)

theorem dropDupKeys_sublist (l : List AlertRec) :
    ∀ seen, (dropDupKeys seen l).Sublist l := by
  induction l with
  | nil => intro seen; simp [dropDupKeys]
  | cons r rs ih =>
    intro seen
    rw [dropDupKeys]
    split
    · exact (ih seen).trans (List.sublist_cons_self r rs)
    · exact List.Sublist.cons₂ r (ih _)

theorem dropDupKeys_spec (l : List AlertRec) :
    ∀ seen, (∀ r ∈ dropDupKeys seen l, keyOf r ∉ seen) ∧
      (dropDupKeys seen l).Pairwise (fun a b => keyOf a ≠ keyOf b) := by
  induction l with
  | nil => intro seen; simp [dropDupKeys]
  | cons r rs ih =>
    intro seen
    rw [dropDupKeys]
    split
    · exact ih seen
    · rename_i hnot
      refine ⟨?_, List.pairwise_cons.mpr ⟨?_, (ih _).2⟩⟩
      · intro x hx
        rcases List.mem_cons.mp hx with rfl | hx'
        · exact hnot
        · intro hmem
          exact (ih (keyOf r :: seen)).1 x hx' (List.mem_cons_of_mem _ hmem)
      · intro b hb heq
        exact (ih (keyOf r :: seen)).1 b hb (heq ▸ List.mem_cons_self _ _)

theorem dropDupKeys_eq_self (l : List AlertRec) :
    ∀ seen, l.Pairwise (fun a b => keyOf a ≠ keyOf b) →
      (∀ r ∈ l, keyOf r ∉ seen) → dropDupKeys seen l = l := by
  induction l with
  | nil => intro seen _ _; rfl
  | cons r rs ih =>
    intro seen hpw hseen
    rw [dropDupKeys, if_neg (by simpa [keyOf] using hseen r (List.mem_cons_self _ _))]
    congr 1
    apply ih
    · exact (List.pairwise_cons.mp hpw).2
    · intro x hx hmem
      rcases List.mem_cons.mp hmem with heq | hmem'
      · exact (List.pairwise_cons.mp hpw).1 x hx heq.symm
      · exact hseen x (List.mem_cons_of_mem _ hx) hmem'

/-- The hit-rate pass preserves the underlying alert records one-for-one. -/
theorem calculate_hit_rate_bases (recs : List AlertRec) (future : List Bar)
    (tfs : List (String × Nat)) :
    (calculate_hit_rate recs future tfs).map HitAlert.base = recs := by
  rw [calculate_hit_rate]
  split
  · rename_i h; rw [h]; rfl
  · split
    · rw [List.map_map]
      conv_rhs => rw [← List.map_id recs]
      apply List.map_congr_left
      intro a _
      rfl
    · rw [List.map_map]
      conv_rhs => rw [← List.map_id recs]
      apply List.map_congr_left
      intro a _
      simp only [Function.comp_apply, id_eq]
      cases h : signalTypeFor a.condition <;> simp [h]

/-- C5: for every input and configuration, the Historical Alert Scanner's
output is sorted in nondecreasing timestamp order, contains no two records
with the same (timestamp, description) pair, and is a fixed point of the
sort-and-deduplicate stage — so re-running it on identical input yields the
identical list, with no growth. -/
theorem C5_sorted_dedup_idempotent (symbol : String) (d : List Bar)
    (conds : List (String × Bool)) (p : ScanParams) (tfs : List (String × Nat))
    (future : List Bar) :
    List.Sorted tsLe
      ((analyze_historical_alerts symbol d conds p tfs future).map HitAlert.base) ∧
    ((analyze_historical_alerts symbol d conds p tfs future).map HitAlert.base).Pairwise
      (fun a b => keyOf a ≠ keyOf b) ∧
    dropDupKeys [] (List.insertionSort tsLe
        ((analyze_historical_alerts symbol d conds p tfs future).map HitAlert.base)) =
      (analyze_historical_alerts symbol d conds p tfs future).map HitAlert.base := by
  have hout : (analyze_historical_alerts symbol d conds p tfs future).map HitAlert.base
      = [] ∨
      (analyze_historical_alerts symbol d conds p tfs future).map HitAlert.base
      = scanRecords symbol d conds p := by
    simp only [analyze_historical_alerts]
    split
    · exact Or.inl rfl
    · split
      · exact Or.inl rfl
      · exact Or.inr (calculate_hit_rate_bases _ _ _)
  have key : ∀ l : List AlertRec, l = scanRecords symbol d conds p →
      List.Sorted tsLe l ∧ l.Pairwise (fun a b => keyOf a ≠ keyOf b) ∧
        dropDupKeys [] (List.insertionSort tsLe l) = l := by
    intro l hl
    have hsorted : List.Sorted tsLe l := by
      rw [hl, scanRecords]
      split
      · simp
      · exact (List.sorted_insertionSort tsLe _).sublist (dropDupKeys_sublist _ _)
    have hpw : l.Pairwise (fun a b => keyOf a ≠ keyOf b) := by
      rw [hl, scanRecords]
      split
      · simp
      · exact (dropDupKeys_spec _ _).2
    refine ⟨hsorted, hpw, ?_⟩
    rw [hsorted.insertionSort_eq]
    exact dropDupKeys_eq_self l [] hpw (by simp)
  rcases hout with h | h
  · rw [h]
    refine ⟨by simp, by simp, by simp [List.insertionSort, dropDupKeys]⟩
  · exact key _ h

/-- C6: upstream fetch failure is a soft-fail.  An empty historical series
makes the scanner return an empty alert list, and an empty fine-grained
forward series makes the hit-rate pass mark every alert
`hit_rate_calculated = false` with every hit/pct field null, leaving the
records otherwise unchanged. -/
theorem C6_soft_fail :
    (∀ (symbol : String) (conds : List (String × Bool)) (p : ScanParams)
      (tfs : List (String × Nat)) (future : List Bar),
      analyze_historical_alerts symbol [] conds p tfs future = []) ∧
    (∀ (alerts : List AlertRec) (tfs : List (String × Nat)),
      calculate_hit_rate alerts [] tfs =
        alerts.map (fun a =>
          HitAlert.mk a false (tfs.map (fun tf => (tf.1, none, none))))) := by
  constructor
  · intro symbol conds p tfs future
    rw [analyze_historical_alerts, if_pos rfl]
  · intro alerts tfs
    rw [calculate_hit_rate]
    split
    · rename_i h
      rw [h]
      rfl
    · rw [if_pos rfl]

/-- C9: with a `None` dataframe, `calculate_rsi` and the full-series modes of
`calculate_macd` and `calculate_hilo_signals` raise (the guard's fallback
builds a Series over `df.index`), while the documented insufficient-data
default is returned exactly for a non-`None` dataframe that is empty or too
short. -/
theorem C9_none_df_raises :
    (∀ period : Nat, calculate_rsi none period = Except.error sAttributeError) ∧
    (∀ f s g : Nat, calculate_macd_series none f s g = Except.error sAttributeError) ∧
    (∀ (l : Nat) (mt : String) (o : Nat),
      calculate_hilo_signals_series none l mt o = Except.error sAttributeError) ∧
    (∀ (d : List Bar) (period : Nat), d ≠ [] → d.length < period + 1 →
      calculate_rsi (some d) period = Except.ok (List.replicate d.length none, 0, 0)) ∧
    (∀ (close : List ℚ) (f s g : Nat), close.length < s + g →
      calculate_macd_series (some close) f s g =
        Except.ok (List.replicate close.length sNenhum)) ∧
    (∀ (d : List Bar) (l : Nat) (mt : String) (o : Nat), d ≠ [] → d.length < l + o + 1 →
      calculate_hilo_signals_series (some d) l mt o =
        Except.ok (List.replicate d.length sNenhum)) := by
  refine ⟨fun _ => rfl, fun _ _ _ => rfl, fun _ _ _ => rfl, ?_, ?_, ?_⟩
  · intro d period _ hlt
    simp only [calculate_rsi, rsiSeriesOf, if_pos (Or.inr hlt)]
  · intro close f s g hlt
    simp only [calculate_macd_series, macdSeriesOf, if_pos hlt]
  · intro d l mt o _ hlt
    simp only [calculate_hilo_signals_series, if_pos (Or.inr hlt)]

/-- Witness for C9 at concrete inputs. -/
theorem C9_witness :
    calculate_rsi none 14 = Except.error sAttributeError ∧
    calculate_rsi (some dW) 14 = Except.ok (List.replicate dW.length none, 0, 0) ∧
    calculate_macd_series (some (closesOf dW)) 12 26 9 =
      Except.ok (List.replicate (closesOf dW).length sNenhum) ∧
    calculate_hilo_signals_series (some dW) 34 sEMA 0 =
      Except.ok (List.replicate dW.length sNenhum) :=
  ⟨C9_none_df_raises.1 14,
   C9_none_df_raises.2.2.2.1 dW 14 (by simp [dW]) (by norm_num [dW]),
   C9_none_df_raises.2.2.2.2.1 (closesOf dW) 12 26 9 (by norm_num [dW, closesOf]),
   C9_none_df_raises.2.2.2.2.2 dW 34 sEMA 0 (by simp [dW]) (by norm_num [dW])⟩

/-- Default record for out-of-range index access in statements. -/
def defaultAlertRec : AlertRec := AlertRec.mk 0 sEmptyStr sEmptyStr sEmptyStr 0

/-- Default enriched record for out-of-range index access in statements. -/
def defaultHitAlert : HitAlert := HitAlert.mk defaultAlertRec false []

/-- Default timeframe entry for out-of-range index access in statements. -/
def defaultTf : String × Nat := (sEmptyStr, 0)

/-- Default per-horizon result entry for out-of-range index access. -/
def defaultRes : String × Option Bool × Option ℚ := (sEmptyStr, none, none)

/-- Indexing a mapped list below its length. -/
theorem getD_map_of_lt {α β : Type} (f : α → β) (l : List α) (i : Nat) (dB : β) (dA : α)
    (hi : i < l.length) : (l.map f).getD i dB = f (l.getD i dA) := by
  rw [List.getD_eq_getElem?_getD, List.getElem?_map, List.getElem?_eq_getElem hi,
    List.getD_eq_getElem?_getD, List.getElem?_eq_getElem hi]
  rfl

/-- C10: the Hit-Rate Analyzer never divides by zero.  For an alert whose
recorded trigger price is 0 and a horizon with available forward data, the
stored percent change is 0 and the hit flag is false, for any directional
bias. -/
theorem C10_zero_price_no_div (alerts : List AlertRec) (future : List Bar)
    (tfs : List (String × Nat)) (i j : Nat) (stype : String) (b : Bar)
    (hi : i < alerts.length) (hf : future ≠ [])
    (hp : (alerts.getD i defaultAlertRec).price = 0)
    (hs : signalTypeFor (alerts.getD i defaultAlertRec).condition = some stype)
    (hj : j < tfs.length)
    (hb : future.find? (fun bb => decide ((alerts.getD i defaultAlertRec).ts +
        (tfs.getD j defaultTf).2 ≤ bb.ts)) = some b) :
    ((calculate_hit_rate alerts future tfs).getD i defaultHitAlert).results.getD j
        defaultRes = ((tfs.getD j defaultTf).1, some false, some 0) := by
  have hne : alerts ≠ [] := by
    intro h
    rw [h] at hi
    exact absurd hi (by simp)
  rw [calculate_hit_rate, if_neg hne, if_neg hf,
    getD_map_of_lt _ alerts i defaultHitAlert defaultAlertRec hi, hs]
  simp only []
  rw [getD_map_of_lt _ tfs j defaultRes defaultTf hj, hb]
  simp only [hp]
  norm_num [rnd2, roundHalfEven]

/-- C2 counterexample: for an alert with trigger price 3 and a forward close
of 4, the stored `pct_change` field is `33.33` (the percent change rounded
to two decimals by `round(pct_change, 2)`), which differs from the claim's
exact formula value `(4 − 3)/3 × 100 = 33.3̅`. -/
theorem C2_counterexample :
    ((calculate_hit_rate [AlertRec.mk 0 sEmptyStr kRsiSv sEmptyStr 3]
        [Bar.mk 15 4 4 4 1] [(sEmptyStr, 15)]).getD 0 defaultHitAlert).results.getD 0
      defaultRes = (sEmptyStr, some true, some (3333 / 100)) ∧
    (3333 : ℚ) / 100 ≠ ((4 : ℚ) - 3) / 3 * 100 := by
  constructor
  · have hst : signalTypeFor kRsiSv = some sBuy := by
      simp [signalTypeFor, SIGNAL_TYPE_MAPPING, kRsiSv, sBuy]
    have hrnd : rnd2 (((4 : ℚ) - 3) / 3 * 100) = 3333 / 100 := by
      have h1 : ((4 : ℚ) - 3) / 3 * 100 * 100 = 10000 / 3 := by norm_num
      have hfl : ⌊((4 : ℚ) - 3) / 3 * 100 * 100⌋ = 3333 := by
        rw [h1, Int.floor_eq_iff]
        constructor <;> norm_num
      rw [rnd2, roundHalfEven, hfl, h1]
      rw [if_pos (by norm_num)]
      norm_num
    simp [calculate_hit_rate, hst, List.find?, defaultHitAlert, defaultRes, hrnd]
    norm_num
  · norm_num

/-- C2 (amended): the Hit-Rate Analyzer, for every alert with a directional
bias, a nonzero trigger price, and every configured horizon: if a forward
bar at or after `alert.ts + horizon` exists, the hit flag is true exactly
when (bias is buy and the percent change is positive) or (bias is sell and
it is negative), and the stored `pct_change` is the formula value
`(future_close − price)/price × 100` rounded to two decimals; with no such
forward bar both fields stay null. -/
theorem C2_hit_rate_amended (alerts : List AlertRec) (future : List Bar)
    (tfs : List (String × Nat)) (i j : Nat) (stype : String)
    (hi : i < alerts.length) (hf : future ≠ [])
    (hs : signalTypeFor (alerts.getD i defaultAlertRec).condition = some stype)
    (hj : j < tfs.length)
    (hp : (alerts.getD i defaultAlertRec).price ≠ 0) :
    ((calculate_hit_rate alerts future tfs).getD i defaultHitAlert).base =
        alerts.getD i defaultAlertRec ∧
    ((calculate_hit_rate alerts future tfs).getD i defaultHitAlert).hit_rate_calculated =
        true ∧
    ((calculate_hit_rate alerts future tfs).getD i defaultHitAlert).results.getD j
        defaultRes =
      (match future.find? (fun bb => decide ((alerts.getD i defaultAlertRec).ts +
          (tfs.getD j defaultTf).2 ≤ bb.ts)) with
      | some b =>
        ((tfs.getD j defaultTf).1,
         some (decide ((stype = sBuy ∧
             0 < (b.close - (alerts.getD i defaultAlertRec).price)
               / (alerts.getD i defaultAlertRec).price * 100) ∨
           (stype = sSell ∧
             (b.close - (alerts.getD i defaultAlertRec).price)
               / (alerts.getD i defaultAlertRec).price * 100 < 0))),
         some (rnd2 ((b.close - (alerts.getD i defaultAlertRec).price)
             / (alerts.getD i defaultAlertRec).price * 100)))
      | none => ((tfs.getD j defaultTf).1, none, none)) := by
  have hne : alerts ≠ [] := by
    intro h
    rw [h] at hi
    exact absurd hi (by simp)
  rw [calculate_hit_rate, if_neg hne, if_neg hf,
    getD_map_of_lt _ alerts i defaultHitAlert defaultAlertRec hi, hs]
  refine ⟨rfl, rfl, ?_⟩
  simp only []
  rw [getD_map_of_lt _ tfs j defaultRes defaultTf hj]
  cases hfind : future.find? (fun bb => decide ((alerts.getD i defaultAlertRec).ts +
      (tfs.getD j defaultTf).2 ≤ bb.ts)) with
  | none => rfl
  | some b =>
    simp only [if_pos hp]
    have hbool : ∀ (pct : ℚ),
        (stype == sBuy && decide (0 < pct) || stype == sSell && decide (pct < 0)) =
          decide ((stype = sBuy ∧ 0 < pct) ∨ (stype = sSell ∧ pct < 0)) := by
      intro pct
      by_cases h1 : stype = sBuy
      · subst h1
        simp [sBuy, sSell]
      · by_cases h2 : stype = sSell
        · subst h2
          simp [sBuy, sSell]
        · simp [h1, h2]
    rw [hbool]

/-- Witness for C2 at a concrete one-alert input with forward data. -/
theorem C2_witness :
    ((calculate_hit_rate [AlertRec.mk 0 sEmptyStr kRsiSv sEmptyStr 3]
        [Bar.mk 20 5 5 5 1] [(sEmptyStr, 15)]).getD 0 defaultHitAlert).base =
      ([AlertRec.mk 0 sEmptyStr kRsiSv sEmptyStr 3] : List AlertRec).getD 0
        defaultAlertRec ∧
    ((calculate_hit_rate [AlertRec.mk 0 sEmptyStr kRsiSv sEmptyStr 3]
        [Bar.mk 20 5 5 5 1] [(sEmptyStr, 15)]).getD 0
          defaultHitAlert).hit_rate_calculated = true ∧
    ((calculate_hit_rate [AlertRec.mk 0 sEmptyStr kRsiSv sEmptyStr 3]
        [Bar.mk 20 5 5 5 1] [(sEmptyStr, 15)]).getD 0 defaultHitAlert).results.getD 0
        defaultRes =
      (match ([Bar.mk 20 5 5 5 1] : List Bar).find? (fun bb =>
          decide ((([AlertRec.mk 0 sEmptyStr kRsiSv sEmptyStr 3] : List AlertRec).getD 0
            defaultAlertRec).ts +
            (([(sEmptyStr, 15)] : List (String × Nat)).getD 0 defaultTf).2 ≤ bb.ts)) with
      | some b =>
        ((([(sEmptyStr, 15)] : List (String × Nat)).getD 0 defaultTf).1,
         some (decide ((sBuy = sBuy ∧
             0 < (b.close - (([AlertRec.mk 0 sEmptyStr kRsiSv sEmptyStr 3] :
                 List AlertRec).getD 0 defaultAlertRec).price)
               / (([AlertRec.mk 0 sEmptyStr kRsiSv sEmptyStr 3] :
                 List AlertRec).getD 0 defaultAlertRec).price * 100) ∨
           (sBuy = sSell ∧
             (b.close - (([AlertRec.mk 0 sEmptyStr kRsiSv sEmptyStr 3] :
                 List AlertRec).getD 0 defaultAlertRec).price)
               / (([AlertRec.mk 0 sEmptyStr kRsiSv sEmptyStr 3] :
                 List AlertRec).getD 0 defaultAlertRec).price * 100 < 0))),
         some (rnd2 ((b.close - (([AlertRec.mk 0 sEmptyStr kRsiSv sEmptyStr 3] :
             List AlertRec).getD 0 defaultAlertRec).price)
           / (([AlertRec.mk 0 sEmptyStr kRsiSv sEmptyStr 3] :
             List AlertRec).getD 0 defaultAlertRec).price * 100)))
      | none => ((([(sEmptyStr, 15)] : List (String × Nat)).getD 0 defaultTf).1,
          none, none)) :=
  C2_hit_rate_amended [AlertRec.mk 0 sEmptyStr kRsiSv sEmptyStr 3] [Bar.mk 20 5 5 5 1]
    [(sEmptyStr, 15)] 0 0 sBuy (by simp) (by simp)
    (by simp [signalTypeFor, SIGNAL_TYPE_MAPPING, kRsiSv, sBuy]) (by simp)
    (by simp [defaultAlertRec])

/-! Death-cross filter mode (C7). -/

theorem mem_ite_singleton {c : Prop} [Decidable c] (k x : String)
    (h : x ∈ (if c then [k] else [])) : x = k := by
  split at h
  · simpa using h
  · simp at h

/-- Every alert emitted by the cooldown loop either was already in the
accumulator or carries one of the pending trigger keys. -/
theorem cooldownFold_keys (symbol : String) (cd : ℤ) (a : AnalysisData) (now : ℤ) :
    ∀ (keys : List String) (acc : List TrigAlert × List (String × ℤ)),
      ∀ al ∈ (cooldownFold symbol cd a now acc keys).1,
        al ∈ acc.1 ∨ al.trigger_key ∈ keys := by
  intro keys
  induction keys with
  | nil => intro acc al hal; exact Or.inl hal
  | cons k rest ih =>
    intro acc al hal
    rw [cooldownFold] at hal
    split at hal
    · split at hal
      · rcases ih acc al hal with h | h
        · exact Or.inl h
        · exact Or.inr (List.mem_cons_of_mem _ h)
      · rcases ih _ al hal with h | h
        · rcases List.mem_append.mp h with h' | h'
          · exact Or.inl h'
          · rw [List.mem_singleton] at h'
            subst h'
            exact Or.inr (by simp)
        · exact Or.inr (List.mem_cons_of_mem _ h)
    · rcases ih _ al hal with h | h
      · rcases List.mem_append.mp h with h' | h'
        · exact Or.inl h'
        · rw [List.mem_singleton] at h'
          subst h'
          exact Or.inr (by simp)
      · exact Or.inr (List.mem_cons_of_mem _ h)

/-- With the death-cross filter active, the buy-side keys `HILO_COMPRA` and
`MEDIA_MOVEL_CIMA` never appear among the active triggers. -/
theorem activeTriggers_death (conds : List (String × LiveCond)) (a : AnalysisData) :
    tHILO_COMPRA ∉ activeTriggers conds a true ∧
      tMEDIA_MOVEL_CIMA ∉ activeTriggers conds a true := by
  constructor <;>
    · rw [activeTriggers]
      simp [tPRECO_ABAIXO, tPRECO_ACIMA, tRSI_SOBREVENDA, tRSI_SOBRECOMPRA,
        tBANDA_INFERIOR, tBANDA_SUPERIOR, tMACD_BAIXA, tMACD_ALTA, tCRUZ_DA_MORTE,
        tCRUZ_DOURADA, tHILO_VENDA, tMEDIA_MOVEL_BAIXO, tHILO_COMPRA, tMEDIA_MOVEL_CIMA]

/-- While the (updated) death-cross filter flag is set, a single evaluation
step emits no buy-side alert. -/
theorem check_and_trigger_suppression (symbol : String)
    (conds : List (String × LiveCond)) (cd : ℤ) (dca : Bool)
    (cooldowns : List (String × ℤ)) (a : AnalysisData) (now : ℤ)
    (hd : deathCrossUpdate a dca = true) :
    ∀ al ∈ (check_and_trigger_alerts symbol conds cd dca cooldowns a now).1,
      al.trigger_key ≠ tHILO_COMPRA ∧ al.trigger_key ≠ tMEDIA_MOVEL_CIMA := by
  intro al hal
  simp only [check_and_trigger_alerts] at hal
  rcases cooldownFold_keys symbol cd a now _ _ al hal with h | h
  · simp at h
  · rw [hd] at h
    exact ⟨fun he => (activeTriggers_death conds a).1 (he ▸ h),
      fun he => (activeTriggers_death conds a).2 (he ▸ h)⟩

/-- The never-property along every trace of live evaluation steps. -/
theorem liveRun_never (symbol : String) (conds : List (String × LiveCond)) (cd : ℤ) :
    ∀ (inputs : List (AnalysisData × ℤ)) (st : LiveState) (i : Nat),
      ((liveRun symbol conds cd st inputs).getD i ([], LiveState.mk false [])).2.dca =
          true →
      ∀ al ∈ ((liveRun symbol conds cd st inputs).getD i ([], LiveState.mk false [])).1,
        al.trigger_key ≠ tHILO_COMPRA ∧ al.trigger_key ≠ tMEDIA_MOVEL_CIMA := by
  intro inputs
  induction inputs with
  | nil =>
    intro st i hd al hal
    simp [liveRun] at hal
  | cons inp rest ih =>
    intro st i
    cases i with
    | zero =>
      intro hd al hal
      rw [liveRun] at hd hal
      simp only [List.getD_cons_zero] at hd hal
      exact check_and_trigger_suppression symbol conds cd st.dca st.cooldowns inp.1 inp.2
        hd al hal
    | succ n =>
      intro hd al hal
      rw [liveRun] at hd hal
      simp only [List.getD_cons_succ] at hd hal
      exact ih _ n hd al hal

/-- C7: Death-Cross Filter Mode is entered when a Death-Cross signal occurs
and exited when a Golden-Cross signal occurs; while it is active, no
HiLo-Buy alert and no moving-average-cross-up alert is ever emitted,
regardless of those conditions' own cooldown state — both at a single step
and along every sequence of live evaluation steps. -/
theorem C7_death_cross_filter :
    (∀ (symbol : String) (conds : List (String × LiveCond)) (cd : ℤ) (st : LiveState)
      (inp : AnalysisData × ℤ),
      (liveStep symbol conds cd st inp).2.dca =
        (if inp.1.mme_cross = sCruzMorte then true
         else if inp.1.mme_cross = sCruzDourada then false else st.dca)) ∧
    (∀ (symbol : String) (conds : List (String × LiveCond)) (cd : ℤ) (st : LiveState)
      (inp : AnalysisData × ℤ),
      (liveStep symbol conds cd st inp).2.dca = true →
      ∀ al ∈ (liveStep symbol conds cd st inp).1,
        al.trigger_key ≠ tHILO_COMPRA ∧ al.trigger_key ≠ tMEDIA_MOVEL_CIMA) ∧
    (∀ (symbol : String) (conds : List (String × LiveCond)) (cd : ℤ)
      (st : LiveState) (inputs : List (AnalysisData × ℤ)) (i : Nat),
      ((liveRun symbol conds cd st inputs).getD i ([], LiveState.mk false [])).2.dca =
          true →
      ∀ al ∈ ((liveRun symbol conds cd st inputs).getD i
          ([], LiveState.mk false [])).1,
        al.trigger_key ≠ tHILO_COMPRA ∧ al.trigger_key ≠ tMEDIA_MOVEL_CIMA) := by
  refine ⟨fun _ _ _ _ _ => rfl, ?_, fun symbol conds cd st inputs i =>
    liveRun_never symbol conds cd inputs st i⟩
  intro symbol conds cd st inp hd al hal
  exact check_and_trigger_suppression symbol conds cd st.dca st.cooldowns inp.1 inp.2
    hd al hal

/-- A live analysis snapshot carrying a Death-Cross signal. -/
def aW1 : AnalysisData :=
  AnalysisData.mk 5 50 1 sNenhum sNenhum sCruzMorte 0 sNenhum []

/-- A later live analysis snapshot carrying a HiLo buy signal. -/
def aW2 : AnalysisData :=
  AnalysisData.mk 5 50 1 sNenhum sNenhum sNenhum 0 sHiloBuy []

/-- A live config with the `hilo_compra` condition enabled. -/
def condsW : List (String × LiveCond) := [(kHiloC, LiveCond.mk true none)]

/-- A symbol name for the C7 witness. -/
def sTW : String := "BTCUSDT"

/-- Witness for C7: after a Death-Cross step, the filter mode is active at
the next step and that step emits no buy-side alert. -/
theorem C7_witness :
    ((liveRun sTW condsW 60 (LiveState.mk false []) [(aW1, 0), (aW2, 10)]).getD 1
        ([], LiveState.mk false [])).2.dca = true ∧
    ∀ al ∈ ((liveRun sTW condsW 60 (LiveState.mk false []) [(aW1, 0), (aW2, 10)]).getD 1
        ([], LiveState.mk false [])).1,
      al.trigger_key ≠ tHILO_COMPRA ∧ al.trigger_key ≠ tMEDIA_MOVEL_CIMA := by
  have hflag : ((liveRun sTW condsW 60 (LiveState.mk false [])
      [(aW1, 0), (aW2, 10)]).getD 1 ([], LiveState.mk false [])).2.dca = true := by
    simp [liveRun, liveStep, check_and_trigger_alerts, deathCrossUpdate, aW1, aW2,
      sCruzMorte, sCruzDourada, sNenhum]
  exact ⟨hflag, C7_death_cross_filter.2.2 sTW condsW 60 (LiveState.mk false [])
    [(aW1, 0), (aW2, 10)] 1 hflag⟩

/-- Witness for C10: a zero-price alert with forward data available. -/
theorem C10_witness :
    ((calculate_hit_rate [AlertRec.mk 0 sEmptyStr kRsiSv sEmptyStr 0]
        [Bar.mk 20 3 3 3 1] [(sEmptyStr, 15)]).getD 0 defaultHitAlert).results.getD 0
      defaultRes =
      ((([(sEmptyStr, 15)] : List (String × Nat)).getD 0 defaultTf).1, some false, some 0) :=
  C10_zero_price_no_div [AlertRec.mk 0 sEmptyStr kRsiSv sEmptyStr 0] [Bar.mk 20 3 3 3 1]
    [(sEmptyStr, 15)] 0 0 sBuy (Bar.mk 20 3 3 3 1) (by simp) (by simp) (by simp [defaultAlertRec])
    (by simp [signalTypeFor, SIGNAL_TYPE_MAPPING, kRsiSv, sBuy]) (by simp)
    (by simp [defaultAlertRec, defaultTf, List.find?])

def df0 : List Bar :=
  [Bar.mk 0 10 10 10 1, Bar.mk 1 9 9 9 1, Bar.mk 2 8 8 8 1, Bar.mk 3 7 7 7 1,
   Bar.mk 4 10 10 10 1, Bar.mk 5 11 11 11 1, Bar.mk 6 5 5 5 1, Bar.mk 7 4 4 4 1]

def params0 : ScanParams := ScanParams.mk 2 75 30 1 3 2 20 2

def conds0 : List (String × Bool) := [(kMacdAlta, true), (kMacdBaixa, true)]

def symW : String := "ETHUSDT"

def tsLt (a b : AlertRec) : Prop := a.ts < b.ts

instance : IsAntisymm AlertRec tsLt :=
  ⟨fun a b h h2 => absurd (Nat.lt_trans h h2) (Nat.lt_irrefl _)⟩

theorem recordsOf_pairwise_tsLt (symbol : String) (d : List Bar) (mask : Nat → Bool)
    (key : String) (desc : Nat → String)
    (hmono : d.Pairwise (fun a b => a.ts < b.ts)) :
    (recordsOf symbol d mask key desc).Pairwise tsLt := by
  rw [recordsOf, List.pairwise_filterMap]
  have hd := List.pairwise_iff_getElem.mp hmono
  apply (List.pairwise_lt_range d.length).imp_of_mem
  intro i j hi hj hij r hr r' hr'
  have hi' : i < d.length := List.mem_range.mp hi
  have hj' : j < d.length := List.mem_range.mp hj
  by_cases hm : mask i
  · by_cases hm' : mask j
    · simp only [hm, if_true, Option.mem_def, Option.some_inj] at hr
      simp only [hm', if_true, Option.mem_def, Option.some_inj] at hr'
      subst hr hr'
      show (d.getD i defaultBar).ts < (d.getD j defaultBar).ts
      rw [List.getD_eq_getElem?_getD, List.getD_eq_getElem?_getD,
        List.getElem?_eq_getElem hi', List.getElem?_eq_getElem hj']
      exact hd i j hi' hj' hij
    · simp [hm'] at hr'
  · simp [hm] at hr

theorem recordsOf_condition (symbol : String) (d : List Bar) (mask : Nat → Bool)
    (key : String) (desc : Nat → String) :
    ∀ r ∈ recordsOf symbol d mask key desc, r.condition = key := by
  intro r hr
  rw [recordsOf, List.mem_filterMap] at hr
  obtain ⟨i, _, hf⟩ := hr
  by_cases hm : mask i
  · simp only [hm, if_true, Option.some_inj] at hf
    subst hf; rfl
  · simp [hm] at hf

theorem recordsOf_description (symbol : String) (d : List Bar) (mask : Nat → Bool)
    (key : String) (c : String) :
    ∀ r ∈ recordsOf symbol d mask key (fun _ => c), r.description = c := by
  intro r hr
  rw [recordsOf, List.mem_filterMap] at hr
  obtain ⟨i, _, hf⟩ := hr
  by_cases hm : mask i
  · simp only [hm, if_true, Option.some_inj] at hf
    subst hf; rfl
  · simp [hm] at hf

theorem scanGroups_macd_only (symbol : String) (d : List Bar)
    (conds : List (String × Bool)) (p : ScanParams)
    (hA : condEnabled conds kMacdAlta = true)
    (hB : condEnabled conds kMacdBaixa = true)
    (h1 : condEnabled conds kRsiSv = false)
    (h2 : condEnabled conds kRsiSc = false)
    (h3 : condEnabled conds kBollAb = false)
    (h4 : condEnabled conds kBollAc = false)
    (h5 : condEnabled conds kDourada = false)
    (h6 : condEnabled conds kMorte = false)
    (h7 : condEnabled conds kHiloC = false)
    (h8 : condEnabled conds kHiloV = false)
    (h9 : condEnabled conds kMMC = false)
    (h10 : condEnabled conds kMMB = false) :
    scanGroups symbol d conds p =
      recordsOf symbol d (macdAltaMask d p) kMacdAlta (fun _ => dMacdAlta) ++
      recordsOf symbol d (macdBaixaMask d p) kMacdBaixa (fun _ => dMacdBaixa) := by
  simp only [scanGroups, hA, hB, h1, h2, h3, h4, h5, h6, h7, h8, h9, h10]
  cases (calculate_emas (some d) [50, 200]).lookup 50 <;>
    cases (calculate_emas (some d) [50, 200]).lookup 200 <;> simp



theorem keys_distinct_g5_g6 (symbol : String) (d : List Bar) (p : ScanParams)
    (hmono : d.Pairwise (fun a b => a.ts < b.ts)) :
    (recordsOf symbol d (macdAltaMask d p) kMacdAlta (fun _ => dMacdAlta) ++
      recordsOf symbol d (macdBaixaMask d p) kMacdBaixa (fun _ => dMacdBaixa)).Pairwise
      (fun a b => keyOf a ≠ keyOf b) := by
  have hg5 := recordsOf_pairwise_tsLt symbol d (macdAltaMask d p) kMacdAlta
    (fun _ => dMacdAlta) hmono
  have hg6 := recordsOf_pairwise_tsLt symbol d (macdBaixaMask d p) kMacdBaixa
    (fun _ => dMacdBaixa) hmono
  rw [List.pairwise_append]
  refine ⟨hg5.imp ?_, hg6.imp ?_, ?_⟩
  · intro a b hab
    simp only [keyOf, ne_eq, Prod.mk.injEq, not_and]
    intro hts
    exact absurd hts (Nat.ne_of_lt hab)
  · intro a b hab
    simp only [keyOf, ne_eq, Prod.mk.injEq, not_and]
    intro hts
    exact absurd hts (Nat.ne_of_lt hab)
  · intro a ha b hb
    have hda := recordsOf_description symbol d (macdAltaMask d p) kMacdAlta dMacdAlta a ha
    have hdb := recordsOf_description symbol d (macdBaixaMask d p) kMacdBaixa dMacdBaixa b hb
    simp only [keyOf, ne_eq, Prod.mk.injEq, not_and]
    intro _
    rw [hda, hdb]
    simp [dMacdAlta, dMacdBaixa]

/-- C1 (amended): with both MACD conditions enabled and all others disabled,
over strictly increasing timestamps, the scanner's sorted deduplicated output
restricted to each MACD condition is exactly one record per bar where that
condition's mask is true; and the bullish mask is *not* the crossover-state
comparison alone — the source additionally requires RSI strictly below the
oversold threshold. -/
theorem C1_macd_scan_amended (symbol : String) (d : List Bar)
    (conds : List (String × Bool)) (p : ScanParams)
    (hne : d ≠ [])
    (hA : condEnabled conds kMacdAlta = true)
    (hB : condEnabled conds kMacdBaixa = true)
    (h1 : condEnabled conds kRsiSv = false)
    (h2 : condEnabled conds kRsiSc = false)
    (h3 : condEnabled conds kBollAb = false)
    (h4 : condEnabled conds kBollAc = false)
    (h5 : condEnabled conds kDourada = false)
    (h6 : condEnabled conds kMorte = false)
    (h7 : condEnabled conds kHiloC = false)
    (h8 : condEnabled conds kHiloV = false)
    (h9 : condEnabled conds kMMC = false)
    (h10 : condEnabled conds kMMB = false)
    (hmono : d.Pairwise (fun a b => a.ts < b.ts)) :
    ((scanRecords symbol d conds p).filter (fun r => r.condition == kMacdAlta) =
      recordsOf symbol d (macdAltaMask d p) kMacdAlta (fun _ => dMacdAlta)) ∧
    ((scanRecords symbol d conds p).filter (fun r => r.condition == kMacdBaixa) =
      recordsOf symbol d (macdBaixaMask d p) kMacdBaixa (fun _ => dMacdBaixa)) ∧
    (∀ i, macdAltaMask d p i =
      (((macdSeriesOf (closesOf d) p.macd_fast p.macd_slow p.macd_signal).getD i sNenhum
          == sAlta) &&
        oLtC ((rsiSeriesOf d p.rsi_period).getD i none) p.rsi_oversold)) := by
  have hsg := scanGroups_macd_only symbol d conds p hA hB h1 h2 h3 h4 h5 h6 h7 h8 h9 h10
  have hg5 := recordsOf_pairwise_tsLt symbol d (macdAltaMask d p) kMacdAlta
    (fun _ => dMacdAlta) hmono
  have hg6 := recordsOf_pairwise_tsLt symbol d (macdBaixaMask d p) kMacdBaixa
    (fun _ => dMacdBaixa) hmono
  have hkeys := keys_distinct_g5_g6 symbol d p hmono
  have hperm : List.Perm (List.insertionSort tsLe (scanGroups symbol d conds p))
      (scanGroups symbol d conds p) := List.perm_insertionSort _ _
  have hkeysL : (List.insertionSort tsLe (scanGroups symbol d conds p)).Pairwise
      (fun a b => keyOf a ≠ keyOf b) := by
    rw [hperm.pairwise_iff (fun {a b} h => fun he => h he.symm), hsg]
    exact hkeys
  have hscan : scanRecords symbol d conds p =
      List.insertionSort tsLe (scanGroups symbol d conds p) := by
    rw [scanRecords, if_neg hne]
    exact dropDupKeys_eq_self _ [] hkeysL (by simp)
  have hsorted : (List.insertionSort tsLe (scanGroups symbol d conds p)).Pairwise tsLe :=
    List.sorted_insertionSort tsLe _
  refine ⟨?_, ?_, fun i => rfl⟩
  · rw [hscan]
    have hfg : (scanGroups symbol d conds p).filter (fun r => r.condition == kMacdAlta) =
        recordsOf symbol d (macdAltaMask d p) kMacdAlta (fun _ => dMacdAlta) := by
      rw [hsg, List.filter_append,
        List.filter_eq_self.mpr (fun r hr => by
          rw [recordsOf_condition symbol d (macdAltaMask d p) kMacdAlta _ r hr]
          simp),
        List.filter_eq_nil_iff.mpr (fun r hr => by
          rw [recordsOf_condition symbol d (macdBaixaMask d p) kMacdBaixa _ r hr]
          simp [kMacdAlta, kMacdBaixa]),
        List.append_nil]
    have hpf : List.Perm ((List.insertionSort tsLe (scanGroups symbol d conds p)).filter
        (fun r => r.condition == kMacdAlta))
        (recordsOf symbol d (macdAltaMask d p) kMacdAlta (fun _ => dMacdAlta)) := by
      rw [← hfg]
      exact hperm.filter _
    apply List.eq_of_perm_of_sorted (r := tsLt) hpf
    · have hle : (List.insertionSort tsLe (scanGroups symbol d conds p)).filter
          (fun r => r.condition == kMacdAlta) |>.Pairwise tsLe :=
        hsorted.sublist (List.filter_sublist _)
      have hne' : (List.insertionSort tsLe (scanGroups symbol d conds p)).filter
          (fun r => r.condition == kMacdAlta) |>.Pairwise (fun a b => a.ts ≠ b.ts) := by
        rw [hpf.pairwise_iff (fun {a b} h => fun he => h he.symm)]
        exact hg5.imp (fun hab => Nat.ne_of_lt hab)
      exact (hle.and hne').imp (fun ⟨hab1, hab2⟩ => Nat.lt_of_le_of_ne hab1 hab2)
    · exact hg5
  · rw [hscan]
    have hfg : (scanGroups symbol d conds p).filter (fun r => r.condition == kMacdBaixa) =
        recordsOf symbol d (macdBaixaMask d p) kMacdBaixa (fun _ => dMacdBaixa) := by
      rw [hsg, List.filter_append,
        List.filter_eq_nil_iff.mpr (fun r hr => by
          rw [recordsOf_condition symbol d (macdAltaMask d p) kMacdAlta _ r hr]
          simp [kMacdAlta, kMacdBaixa]),
        List.filter_eq_self.mpr (fun r hr => by
          rw [recordsOf_condition symbol d (macdBaixaMask d p) kMacdBaixa _ r hr]
          simp),
        List.nil_append]
    have hpf : List.Perm ((List.insertionSort tsLe (scanGroups symbol d conds p)).filter
        (fun r => r.condition == kMacdBaixa))
        (recordsOf symbol d (macdBaixaMask d p) kMacdBaixa (fun _ => dMacdBaixa)) := by
      rw [← hfg]
      exact hperm.filter _
    apply List.eq_of_perm_of_sorted (r := tsLt) hpf
    · have hle : (List.insertionSort tsLe (scanGroups symbol d conds p)).filter
          (fun r => r.condition == kMacdBaixa) |>.Pairwise tsLe :=
        hsorted.sublist (List.filter_sublist _)
      have hne' : (List.insertionSort tsLe (scanGroups symbol d conds p)).filter
          (fun r => r.condition == kMacdBaixa) |>.Pairwise (fun a b => a.ts ≠ b.ts) := by
        rw [hpf.pairwise_iff (fun {a b} h => fun he => h he.symm)]
        exact hg6.imp (fun hab => Nat.ne_of_lt hab)
      exact (hle.and hne').imp (fun ⟨hab1, hab2⟩ => Nat.lt_of_le_of_ne hab1 hab2)
    · exact hg6



/-- C1 (counterexample): the bullish-MACD trigger mask is *not* equivalent to
the crossover-state series equalling "Cruzamento de Alta": on `df0` with
`params0` the crossover state at bar 4 is a bullish cross, yet the mask is
false because the RSI there (75) is not below the oversold threshold (30). -/
theorem C1_counterexample :
    (macdSeriesOf (closesOf df0) 1 3 2).getD 4 sNenhum = sAlta ∧
      macdAltaMask df0 params0 4 = false := by
  have hm : macdLine (closesOf df0) 1 3 =
      [0, -1/2, -3/4, -7/8, 17/16, 33/32, -159/64, -223/128] := by
    norm_num [macdLine, ewmMean, ewmAux, ewmAlpha, df0, closesOf]
  have hs : macdSignalLine (closesOf df0) 1 3 2 =
      [0, -1/3, -11/18, -85/108, 289/648, 3251/3888, -32135/23328, -226837/139968] := by
    norm_num [macdSignalLine, macdLine, ewmMean, ewmAux, ewmAlpha, df0, closesOf]
  have hlen : (closesOf df0).length = 8 := by norm_num [df0, closesOf]
  have hx : macdSeriesOf (closesOf df0) 1 3 2 =
      (List.range 8).map (macdCrossAt (macdLine (closesOf df0) 1 3)
        (macdSignalLine (closesOf df0) 1 3 2)) := by
    rw [macdSeriesOf, if_neg (by rw [hlen]; norm_num), macdSeriesCore, hlen]
  have hcross : (macdSeriesOf (closesOf df0) 1 3 2).getD 4 sNenhum = sAlta := by
    rw [hx, getD_map_range, if_pos (by norm_num), macdCrossAt, hm, hs]
    norm_num
  have hrsi : (rsiSeriesOf df0 2).getD 4 none = some 75 := by
    have hr : rsiSeriesOf df0 2 = (List.range 8).map (rsiAt (closesOf df0) 2) := by
      rw [rsiSeriesOf, if_neg (by simp [df0])]
      rw [show df0.length = 8 from by simp [df0]]
    rw [hr, getD_map_range, if_pos (by norm_num), rsiAt]
    norm_num [List.range_succ, closesOf, df0, qsum]
  refine ⟨hcross, ?_⟩
  have hmask : macdAltaMask df0 params0 4 =
      (((macdSeriesOf (closesOf df0) 1 3 2).getD 4 sNenhum == sAlta) &&
        oLtC ((rsiSeriesOf df0 2).getD 4 none) 30) := rfl
  rw [hmask, hcross, hrsi]
  simp only [oLtC, oLt, beq_self_eq_true, Bool.true_and]
  norm_num

theorem C1_witness :
    (scanRecords symW df0 conds0 params0).filter (fun r => r.condition == kMacdAlta) =
      recordsOf symW df0 (macdAltaMask df0 params0) kMacdAlta (fun _ => dMacdAlta) :=
  (C1_macd_scan_amended symW df0 conds0 params0 (by simp [df0]) (by decide) (by decide)
    (by decide) (by decide) (by decide) (by decide) (by decide) (by decide) (by decide)
    (by decide) (by decide) (by decide) (by decide)).1

end Crypto
